import Mathlib

/-!
Verification development for the `owl` resolver library (`src/resolver.go`).

The Go code is shallowly embedded: `reflect.Type` becomes the inductive
`GoType` (restricted to what `resolver.go` inspects: opaque base types,
pointers, structs with ordered field lists), `reflect.Value` becomes
`GoValue`, `context.Context` becomes an association list `Ctx`, and the
resolver tree becomes the inductive `Resolver`.  Go slices of fields,
values and child resolvers are represented by the mutually defined list
types `GoFieldList`, `GoValueList` and `ResolverList`, so that every
recursion over a tree is structural.  Fallible Go functions return
`Except`; Go panics (failed type assertions, reflect panics on bad
indices) are modelled as `Except Unit` errors at the outermost level.

Types that live in files of this repository outside `src/` (`Directive`,
`Namespace`, `Executor`, the error constructors) are modelled from the
spec and carry a doc comment saying so.
-/

set_option maxHeartbeats 1000000

/-- Modelled from the spec: the `Directive` type is declared in a file of
this repository outside `src/`; the spec describes it as `{name, arguments}`
parsed from one semicolon-delimited tag segment. -/
structure Directive where
  name : String
  argv : List String
deriving DecidableEq, Repr

mutual
/-- Embedding of `reflect.Type`, restricted to the shapes `resolver.go`
inspects: an opaque base (non-struct, non-pointer) type, a pointer type, or
a struct type with an ordered field list. -/
inductive GoType : Type where
  | base (name : String) : GoType
  | ptr (elem : GoType) : GoType
  | struct (fields : GoFieldList) : GoType

/-- Embedding of `reflect.StructField`: field name, field type, the tag
value for the owl tag key (i.e. the result of `field.Tag.Get(Tag())`), and
whether the field is exported. -/
inductive GoField : Type where
  | mk (name : String) (type : GoType) (tag : String) (exported : Bool) : GoField

/-- An ordered list of struct fields. -/
inductive GoFieldList : Type where
  | nil : GoFieldList
  | cons (f : GoField) (rest : GoFieldList) : GoFieldList
end

def GoField.name : GoField → String
  | .mk n _ _ _ => n

def GoField.type : GoField → GoType
  | .mk _ t _ _ => t

def GoField.tag : GoField → String
  | .mk _ _ tg _ => tg

def GoField.exported : GoField → Bool
  | .mk _ _ _ e => e

/-- The field list as an ordinary Lean list (for statements). -/
def GoFieldList.toList : GoFieldList → List GoField
  | .nil => []
  | .cons f rest => f :: rest.toList

/-- `t.Elem()` applied once when `t.Kind() == reflect.Ptr`, as both
`buildResolver` and `reflectStructType` do. -/
def GoType.stripPtr : GoType → GoType
  | .ptr e => e
  | t => t

def GoType.isPtr : GoType → Bool
  | .ptr _ => true
  | _ => false

mutual
/-- Embedding of `reflect.Value` at the level of detail `resolver.go`
manipulates values: opaque scalars with a payload, nil pointers, non-nil
pointers, and struct values as ordered field-value lists (one entry per
declared field, exported or not). -/
inductive GoValue : Type where
  | prim (ty : String) (data : String) : GoValue
  | nilPtr : GoValue
  | ptrTo (v : GoValue) : GoValue
  | structV (fields : GoValueList) : GoValue

/-- An ordered list of field values of a struct value. -/
inductive GoValueList : Type where
  | nil : GoValueList
  | cons (v : GoValue) (rest : GoValueList) : GoValueList
end

mutual
def GoValue.beq : GoValue → GoValue → Bool
  | .prim t d, .prim t2 d2 => t == t2 && d == d2
  | .nilPtr, .nilPtr => true
  | .ptrTo v, .ptrTo w => GoValue.beq v w
  | .structV fs, .structV gs => GoValueList.beq fs gs
  | _, _ => false

def GoValueList.beq : GoValueList → GoValueList → Bool
  | .nil, .nil => true
  | .cons v vs, .cons w ws => GoValue.beq v w && GoValueList.beq vs ws
  | _, _ => false
end

mutual
theorem GoValue.beqAgrees : ∀ v w : GoValue, GoValue.beq v w = true ↔ v = w
  | .prim t d, w => by
    cases w <;> simp [GoValue.beq]
  | .nilPtr, w => by
    cases w <;> simp [GoValue.beq]
  | .ptrTo v, w => by
    cases w <;> simp [GoValue.beq, GoValue.beqAgrees v]
  | .structV fs, w => by
    cases w <;> simp [GoValue.beq, GoValueList.beqListAgrees fs]

theorem GoValueList.beqListAgrees : ∀ vs ws : GoValueList, GoValueList.beq vs ws = true ↔ vs = ws
  | .nil, ws => by
    cases ws <;> simp [GoValueList.beq]
  | .cons v vs, ws => by
    cases ws <;> simp [GoValueList.beq, GoValue.beqAgrees v, GoValueList.beqListAgrees vs]
end

instance : DecidableEq GoValue := fun v w =>
  decidable_of_iff (GoValue.beq v w = true) (GoValue.beqAgrees v w)

instance : DecidableEq GoValueList := fun vs ws =>
  decidable_of_iff (GoValueList.beq vs ws = true) (GoValueList.beqListAgrees vs ws)

def GoValueList.toList : GoValueList → List GoValue
  | .nil => []
  | .cons v rest => v :: rest.toList

def GoValueList.length : GoValueList → Nat
  | .nil => 0
  | .cons _ rest => rest.length + 1

/-- Positional read of a struct value's field (for statements). -/
def GoValueList.get? : GoValueList → Nat → Option GoValue
  | .nil, _ => none
  | .cons v _, 0 => some v
  | .cons _ rest, n + 1 => rest.get? n

/-- Positional overwrite of a struct value's field. -/
def GoValueList.set : GoValueList → Nat → GoValue → GoValueList
  | .nil, _, _ => .nil
  | .cons _ rest, 0, fv => .cons fv rest
  | .cons v rest, n + 1, fv => .cons v (rest.set n fv)

mutual
/-- The zero value of a type, as produced by `reflect.New(t).Elem()`. -/
def GoType.zeroValue : GoType → GoValue
  | .base n => .prim n ""
  | .ptr _ => .nilPtr
  | .struct fs => .structV (zeroFields fs)

def zeroFields : GoFieldList → GoValueList
  | .nil => .nil
  | .cons (.mk _ t _ _) rest => .cons t.zeroValue (zeroFields rest)
end

/-- `underlyingValue.Elem().Field(i).Set(fv)`: writing field `i` of a struct
value.  Returns `none` (a reflect panic) when the value is not a struct or
the index is out of range. -/
def setStructField (v : GoValue) (i : Int) (fv : GoValue) : Option GoValue :=
  match v with
  | .structV fs =>
    if 0 ≤ i ∧ i.toNat < fs.length then some (.structV (fs.set i.toNat fv)) else none
  | _ => none

/-- Modelled from the spec: `Executor` is an external capability
`Execute(runtime) -> error|nil` where the runtime exposes the directive, the
owning node, the active context and the value slot.  Here the executor sees
the directive, the owning node's path, and the current value; it returns the
(possibly rewritten) value together with an optional error message. -/
structure Executor where
  run : Directive → List String → GoValue → GoValue × Option String

/-- Modelled from the spec: `Namespace` is the executor registry,
`LookupExecutor(name) -> Executor | absent`. -/
structure Namespace where
  lookupExecutor : String → Option Executor

/-- A value stored in a `context.Context`: either a `*Namespace` (where
`none` stands for a typed nil pointer) or some unrelated value. -/
inductive CtxVal : Type where
  | nsVal (ns : Option Namespace) : CtxVal
  | otherVal : CtxVal

/-- The context key `ckNamespace` used by the package. -/
def ckNamespace : String := "ckNamespace"

/-- Embedding of `context.Context` as an association list of keyed values;
`context.Background()` is the empty list. -/
def Ctx : Type := List (String × CtxVal)

def Ctx.background : Ctx := []

/-- `ctx.Value(k)`: `nil` (here `none`) when the key is absent. -/
def Ctx.value : Ctx → String → Option CtxVal
  | [], _ => none
  | (k2, v) :: rest, k => if k2 = k then some v else Ctx.value rest k

mutual
/-- Embedding of the `Resolver` struct: a node of the resolver tree.  The
`Parent` back-pointer of the Go struct is not carried here (in this tree
representation a node's parent is the unique node owning it among its
`children`); the `Path` recorded in each node carries the same
information.  The heap-level identity of nodes, needed only by the cloning
claims, is modelled separately by `HRes` below. -/
inductive Resolver : Type where
  | mk (type : GoType) (fieldName : String) (index : Int) (path : List String)
       (directives : List Directive) (context : Ctx) (children : ResolverList) : Resolver

/-- The ordered `Children` slice of a node. -/
inductive ResolverList : Type where
  | nil : ResolverList
  | cons (r : Resolver) (rest : ResolverList) : ResolverList
end

def Resolver.type : Resolver → GoType
  | .mk t _ _ _ _ _ _ => t

def Resolver.fieldName : Resolver → String
  | .mk _ fn _ _ _ _ _ => fn

def Resolver.index : Resolver → Int
  | .mk _ _ i _ _ _ _ => i

def Resolver.path : Resolver → List String
  | .mk _ _ _ p _ _ _ => p

def Resolver.directives : Resolver → List Directive
  | .mk _ _ _ _ ds _ _ => ds

def Resolver.context : Resolver → Ctx
  | .mk _ _ _ _ _ c _ => c

def Resolver.children : Resolver → ResolverList
  | .mk _ _ _ _ _ _ cs => cs

def ResolverList.toList : ResolverList → List Resolver
  | .nil => []
  | .cons r rest => r :: rest.toList

def ResolverList.length : ResolverList → Nat
  | .nil => 0
  | .cons _ rest => rest.length + 1

/-- `(*Resolver).PathString`. -/
def Resolver.PathString (r : Resolver) : String :=
  String.intercalate "." r.path

/-- `(*Resolver).IsLeaf`. -/
def Resolver.IsLeaf (r : Resolver) : Bool :=
  match r.children with
  | .nil => true
  | .cons _ _ => false

/-- `(*Resolver).GetDirective`: first directive with the given name. -/
def Resolver.GetDirective (r : Resolver) (name : String) : Option Directive :=
  r.directives.find? (fun d => d.name == name)

/-- `strings.TrimSpace`: drop leading and trailing whitespace. -/
def goTrimSpace (s : String) : String :=
  ⟨(((s.toList.dropWhile Char.isWhitespace).reverse).dropWhile Char.isWhitespace).reverse⟩

/-- Accumulating loop for `strings.Split` with a one-character separator. -/
def goSplitCharAux (sep : Char) : List Char → List Char → List String
  | [], acc => [⟨acc.reverse⟩]
  | c :: rest, acc =>
    if c = sep then (⟨acc.reverse⟩ : String) :: goSplitCharAux sep rest []
    else goSplitCharAux sep rest (c :: acc)

/-- `strings.Split(s, sep)` for a one-character separator (the package only
splits on `";"` and `"."`).  `goSplitChar sep "" = [""]`, as in Go. -/
def goSplitChar (sep : Char) (s : String) : List String :=
  goSplitCharAux sep s.toList []

/-- The `for _, field := range root.Children` loop of `findResolver`: the
first child whose field name matches the segment (the loop returns out of
its first match, with no backtracking). -/
def ResolverList.findByName : ResolverList → String → Option Resolver
  | .nil, _ => none
  | .cons c crest, s => if c.fieldName = s then some c else crest.findByName s

/-- `findResolver(root, path)`: with a non-empty path, recurse into the
first child whose field name matches the head segment; `nil` when no child
matches. -/
def findResolver : Resolver → List String → Option Resolver
  | root, [] => some root
  | root, s :: rest =>
    match root.children.findByName s with
    | some c => findResolver c rest
    | none => none

/-- `(*Resolver).Lookup`: split the dotted path on `"."` and descend. -/
def Resolver.Lookup (r : Resolver) (path : String) : Option Resolver :=
  findResolver r (goSplitChar '.' path)

/-- An error produced while parsing one field's tag: either the external
`ParseDirective` failed on one segment, or a directive name repeated on the
same field (the `duplicateDirective` error of the repository's error file,
modelled from the spec). -/
inductive ParseErr : Type where
  | external (msg : String) : ParseErr
  | duplicateDirective (name : String) : ParseErr
deriving DecidableEq, Repr

/-- The loop body of `parseDirectives`: iterate the raw segments obtained
from `strings.Split`, trim each, skip empty ones, parse with the external
`ParseDirective` (here the parameter `parse`), and reject a directive name
already seen (the `existed` set, carried as the list of seen names). -/
def parseDirectivesLoop (parse : String → Except String Directive) :
    List String → List String → Except ParseErr (List Directive)
  | [], _ => .ok []
  | seg :: rest, existed =>
    let s := goTrimSpace seg
    if s = "" then parseDirectivesLoop parse rest existed
    else
      match parse s with
      | .error e => .error (.external e)
      | .ok d =>
        if d.name ∈ existed then .error (.duplicateDirective d.name)
        else
          match parseDirectivesLoop parse rest (d.name :: existed) with
          | .error e => .error e
          | .ok ds => .ok (d :: ds)

/-- `parseDirectives`: trim the whole tag, split on `";"`, then run the
loop.  `parse` embeds the external `ParseDirective`. -/
def parseDirectives (parse : String → Except String Directive) (tag : String) :
    Except ParseErr (List Directive) :=
  parseDirectivesLoop parse (goSplitChar ';' (goTrimSpace tag)) []

/-- A build error: `parse directives: <e>` produced at the failing node,
plus one `build resolver for "<path>" failed: <e>` wrapper added by each
enclosing field loop. -/
inductive BuildErr : Type where
  | parseDirectivesErr (e : ParseErr) : BuildErr
  | buildChildErr (path : List String) (e : BuildErr) : BuildErr
deriving DecidableEq, Repr

def Resolver.setIndex : Resolver → Int → Resolver
  | .mk t fn _ p ds ctx cs, i => .mk t fn i p ds ctx cs

/-- The prologue of `buildResolver`: the root call (nil parent) keeps the
zero `Directives` and empty `Path`; any other call parses the owning
field's tag (a failure is wrapped as `parse directives: ...`) and sets
`Path = parent.Path + [fieldName]`. -/
def buildDirsPath (parse : String → Except String Directive)
    (fname : String) (tag : String) :
    Option (List String) → Except BuildErr (List Directive × List String)
  | none => .ok ([], [])
  | some pp =>
    match parseDirectives parse tag with
    | .error e => .error (BuildErr.parseDirectivesErr e)
    | .ok ds => .ok (ds, pp ++ [fname])

mutual
/-- `buildResolver(t, field, parent)`.  The parent pointer is carried as
`parentPath?`: `none` for the root call (nil parent), `some pp` with the
parent's `Path` otherwise.  The node is created with `Index: -1` and
`Context: context.Background()`; the tag parsing and path extension of a
non-root node are `buildDirsPath`; when the node's type is a struct after
removing at most one level of pointer indirection, one child is built per
exported field, and a child failure is wrapped as
`build resolver for "<path>" failed: ...`. -/
def buildResolver (parse : String → Except String Directive)
    (t : GoType) (fname : String) (tag : String) (parentPath? : Option (List String)) :
    Except BuildErr Resolver :=
  match t with
  | .struct fs =>
    match buildDirsPath parse fname tag parentPath? with
    | .error e => .error e
    | .ok (ds, path) =>
      match buildChildrenFn parse path fs 0 with
      | .error e => .error e
      | .ok children => .ok (.mk (.struct fs) fname (-1) path ds Ctx.background children)
  | .ptr e =>
    match e with
    | .struct fs =>
      match buildDirsPath parse fname tag parentPath? with
      | .error e2 => .error e2
      | .ok (ds, path) =>
        match buildChildrenFn parse path fs 0 with
        | .error e2 => .error e2
        | .ok children =>
          .ok (.mk (.ptr (.struct fs)) fname (-1) path ds Ctx.background children)
    | e2 =>
      match buildDirsPath parse fname tag parentPath? with
      | .error e3 => .error e3
      | .ok (ds, path) => .ok (.mk (.ptr e2) fname (-1) path ds Ctx.background .nil)
  | t2 =>
    match buildDirsPath parse fname tag parentPath? with
    | .error e => .error e
    | .ok (ds, path) => .ok (.mk t2 fname (-1) path ds Ctx.background .nil)

/-- The field loop of `buildResolver`: `i` is the loop index over all
declared fields; unexported fields are skipped entirely (but still advance
`i`); a successfully built child gets `child.Index = i` and is appended. -/
def buildChildrenFn (parse : String → Except String Directive)
    (ppath : List String) : GoFieldList → Nat → Except BuildErr ResolverList
  | .nil, _ => .ok .nil
  | .cons (.mk fn ft ftag fexp) rest, i =>
    if fexp then
      match buildResolver parse ft fn ftag (some ppath) with
      | .error e => .error (.buildChildErr (ppath ++ [fn]) e)
      | .ok child =>
        match buildChildrenFn parse ppath rest (i + 1) with
        | .error e => .error e
        | .ok cs => .ok (.cons (child.setIndex (Int.ofNat i)) cs)
    else buildChildrenFn parse ppath rest (i + 1)
end

/-- `buildResolverTree`: the root call, with a zero `reflect.StructField`
(empty name and tag) and nil parent. -/
def buildResolverTree (parse : String → Except String Directive) (t : GoType) :
    Except BuildErr Resolver :=
  buildResolver parse t "" "" none

/-- The resolution-time error taxonomy.  `missingExecutor` is the sentinel
`ErrMissingExecutor`; `execFailure` is an error returned by an `Executor`;
`directiveExecutionError` is `DirectiveExecutionError{Err, Directive}`;
`resolveError` is `ResolveError{Err, Resolver}`, the failing child being
identified here by its `Path` and field name.  (These error types live in a
file outside `src/` and are modelled from the spec: each wraps its cause
with the directive's, or the failing child's, identity.) -/
inductive GoErr : Type where
  | missingExecutor : GoErr
  | execFailure (msg : String) : GoErr
  | directiveExecutionError (cause : GoErr) (directive : Directive) : GoErr
  | resolveError (cause : GoErr) (path : List String) (fieldName : String) : GoErr
deriving DecidableEq, Repr

/-- `(*Resolver).Namespace`: the type assertion
`r.Context.Value(ckNamespace).(*Namespace)`.  A missing key (nil interface)
or a non-`*Namespace` value makes the assertion panic, modelled as
`.error ()`; a typed nil `*Namespace` succeeds and yields `none`. -/
def Resolver.Namespace (r : Resolver) : Except Unit (Option Namespace) :=
  match r.context.value ckNamespace with
  | some (.nsVal ns) => .ok ns
  | _ => .error ()

/-- The `ErrNilNamespace` configuration error (modelled from the spec: the
sentinel lives in a file outside `src/`). -/
inductive ConfigErr : Type where
  | nilNamespace : ConfigErr
deriving DecidableEq, Repr

/-- `(*Resolver).validate`: returns the `ErrNilNamespace`-wrapped
configuration error when `r.Namespace()` is (typed) nil; panics
(`.error ()`) when `r.Namespace()` itself panics. -/
def Resolver.validate (r : Resolver) : Except Unit (Option ConfigErr) :=
  match r.Namespace with
  | .error u => .error u
  | .ok none => .ok (some .nilNamespace)
  | .ok (some _) => .ok none

/-- One recorded directive execution: the executing node's path and the
directive's name.  The log exists only in the embedding, in order to state
"this directive never executed". -/
abbrev DirEvent : Type := List String × String

/-- The loop of `runDirectives`: for each directive in declared order, look
up an executor by name (absence is a fatal `DirectiveExecutionError`
wrapping `ErrMissingExecutor`), run it (recording the execution in the
log), and stop at the first failure, wrapping it with the directive.  A nil
`*Namespace` receiver (`ns = none`) makes `LookupExecutor` dereference nil
and panic. -/
def runDirectivesLoop (ns : Option Namespace) (path : List String) :
    List Directive → GoValue → Except Unit (GoValue × List DirEvent × Option GoErr)
  | [], v => .ok (v, [], none)
  | d :: rest, v =>
    match ns with
    | none => .error ()
    | some nsv =>
      match nsv.lookupExecutor d.name with
      | none => .ok (v, [], some (.directiveExecutionError .missingExecutor d))
      | some exe =>
        match exe.run d path v with
        | (v2, some msg) =>
          .ok (v2, [(path, d.name)], some (.directiveExecutionError (.execFailure msg) d))
        | (v2, none) =>
          match runDirectivesLoop ns path rest v2 with
          | .error u => .error u
          | .ok (v3, log, e?) => .ok (v3, (path, d.name) :: log, e?)

/-- `(*Resolver).runDirectives`: fetch the bound namespace from the node's
context (panicking if none was ever bound), then run the node's directives
in declared order against the value. -/
def Resolver.runDirectives (r : Resolver) (v : GoValue) :
    Except Unit (GoValue × List DirEvent × Option GoErr) :=
  match r.Namespace with
  | .error u => .error u
  | .ok ns => runDirectivesLoop ns r.path r.directives v

mutual
/-- `(*Resolver).resolve`: allocate the zero value of the node's type, run
the node's directives against it, then (when the node has children) pick
the assembly target — a freshly allocated underlying struct value when the
node's type is a one-level pointer, the directive-processed value itself
otherwise — resolve the children in order, and return the assembled value.
As in the Go code, the in-progress value is returned *alongside* a
resolution error. -/
def Resolver.resolve : Resolver → Except Unit (GoValue × List DirEvent × Option GoErr)
  | .mk t fn idx path ds ctx children =>
    match Resolver.runDirectives (.mk t fn idx path ds ctx children) t.zeroValue with
    | .error u => .error u
    | .ok (v1, log1, some e) => .ok (v1, log1, some e)
    | .ok (v1, log1, none) =>
      match children with
      | .nil => .ok (v1, log1, none)
      | .cons c0 crest =>
        match Resolver.resolveChildren (.cons c0 crest)
            (if t.isPtr then t.stripPtr.zeroValue else v1) with
        | .error u => .error u
        | .ok (uv, log2, e?) =>
          .ok (if t.isPtr then .ptrTo uv else uv, log1 ++ log2, e?)

/-- The child loop of `resolve`: resolve each child in `Children` order; on
success write its value into the assembly target at `child.Index`; on the
first failure stop and return a `ResolveError` wrapping the cause and
identifying the failing child. -/
def Resolver.resolveChildren :
    ResolverList → GoValue → Except Unit (GoValue × List DirEvent × Option GoErr)
  | .nil, uv => .ok (uv, [], none)
  | .cons c rest, uv =>
    match Resolver.resolve c with
    | .error u => .error u
    | .ok (_, clog, some cerr) =>
      .ok (uv, clog, some (.resolveError cerr c.path c.fieldName))
    | .ok (cv, clog, none) =>
      match setStructField uv c.index cv with
      | none => .error ()
      | some uv2 =>
        match Resolver.resolveChildren rest uv2 with
        | .error u => .error u
        | .ok (uvF, rlog, e?) => .ok (uvF, clog ++ rlog, e?)
end

/-- `(*Resolver).Resolve`: the public entry point builds the resolve-time
context from the options and calls `resolve`; the options only seed the
context threaded to executors, which the embedding's executors receive via
their closure, so `Resolve` with no options is exactly `resolve`. -/
def Resolver.Resolve (r : Resolver) : Except Unit (GoValue × List DirEvent × Option GoErr) :=
  r.resolve

mutual
/-- Heap-instrumented resolver node, used only for the cloning claims.  In
addition to the `Resolver` fields it records the allocation identity of the
`*Resolver` itself (`id`), the identity of its parent allocation
(`parent`, `none` for a nil `Parent` pointer), and the identities of the
backing arrays of the `Path` and `Directives` slices (`pathRef`,
`directivesRef`) — all drawn from one address space of heap addresses, so
that "shares mutable state" is expressible. -/
inductive HRes : Type where
  | mk (id : Nat) (parent : Option Nat) (type : GoType) (fieldName : String)
       (index : Int) (path : List String) (pathRef : Nat)
       (directives : List Directive) (directivesRef : Nat)
       (context : Ctx) (children : HResList) : HRes

/-- The ordered `Children` slice of a heap-instrumented node. -/
inductive HResList : Type where
  | nil : HResList
  | cons (r : HRes) (rest : HResList) : HResList
end

def HRes.id : HRes → Nat
  | .mk i _ _ _ _ _ _ _ _ _ _ => i

def HRes.parent : HRes → Option Nat
  | .mk _ p _ _ _ _ _ _ _ _ _ => p

def HRes.pathVal : HRes → List String
  | .mk _ _ _ _ _ p _ _ _ _ _ => p

def HRes.pathRef : HRes → Nat
  | .mk _ _ _ _ _ _ pr _ _ _ _ => pr

def HRes.directivesVal : HRes → List Directive
  | .mk _ _ _ _ _ _ _ ds _ _ _ => ds

def HRes.directivesRef : HRes → Nat
  | .mk _ _ _ _ _ _ _ _ dr _ _ => dr

def HRes.context : HRes → Ctx
  | .mk _ _ _ _ _ _ _ _ _ c _ => c

def HRes.children : HRes → HResList
  | .mk _ _ _ _ _ _ _ _ _ _ cs => cs

def HRes.setParent : HRes → Option Nat → HRes
  | .mk i _ t fn idx p pr ds dr c cs, par => .mk i par t fn idx p pr ds dr c cs

mutual
/-- `(*Resolver).copy` over heap-instrumented nodes, with `next` the next
free heap address.  `resolverCopy := new(Resolver)` allocates a fresh
identity; `*resolverCopy = *r` copies every field verbatim — including the
`Path` and `Directives` slice headers, hence `pathRef`/`directivesRef` —
then `resolverCopy.Context = context.Background()` resets the context, the
children are copied recursively in order, and each copied child's `Parent`
is re-pointed at the new node. -/
def HRes.copy : HRes → Nat → HRes × Nat
  | .mk _ parent t fn idx path pref ds dref _ cs, next =>
    match HRes.copyChildren cs (next + 1) next with
    | (cs2, next2) => (.mk next parent t fn idx path pref ds dref Ctx.background cs2, next2)

/-- The `for i, child := range r.Children` loop of `copy`: copy each child,
then rebind its `Parent` to the new node (`parentId`). -/
def HRes.copyChildren : HResList → Nat → Nat → HResList × Nat
  | .nil, next, _ => (.nil, next)
  | .cons c rest, next, parentId =>
    match HRes.copy c next with
    | (c2, next2) =>
      match HRes.copyChildren rest next2 parentId with
      | (cs2, next3) => (.cons (c2.setParent (some parentId)) cs2, next3)
end

mutual
/-- Number of nodes of a heap-instrumented tree. -/
def HRes.count : HRes → Nat
  | .mk _ _ _ _ _ _ _ _ _ _ cs => HRes.countList cs + 1

def HRes.countList : HResList → Nat
  | .nil => 0
  | .cons c rest => HRes.count c + HRes.countList rest
end

mutual
/-- The node identities of a tree, in allocation (pre-)order. -/
def HRes.ids : HRes → List Nat
  | .mk i _ _ _ _ _ _ _ _ _ cs => i :: HRes.idsList cs

def HRes.idsList : HResList → List Nat
  | .nil => []
  | .cons c rest => HRes.ids c ++ HRes.idsList rest
end

mutual
/-- All heap addresses through which a tree's state can be mutated: the
node allocations themselves plus the backing arrays of every node's
non-empty `Path` and `Directives` slices. -/
def HRes.mutRefs : HRes → List Nat
  | .mk i _ _ _ _ path pref ds dref _ cs =>
    i :: ((if path = [] then [] else [pref]) ++
          (if ds = [] then [] else [dref]) ++ HRes.mutRefsList cs)

def HRes.mutRefsList : HResList → List Nat
  | .nil => []
  | .cons c rest => HRes.mutRefs c ++ HRes.mutRefsList rest
end

/-- The formal reading of "the clone shares no mutable state with the
source": no heap address through which the clone can be mutated is also an
address through which the source can be mutated. -/
def HSharesNoMutable (src clone : HRes) : Prop :=
  ∀ a ∈ clone.mutRefs, a ∉ src.mutRefs

instance (src clone : HRes) : Decidable (HSharesNoMutable src clone) :=
  List.decidableBAll _ _

def HResList.allParent : HResList → Nat → Bool
  | .nil, _ => true
  | .cons c rest, i => (c.parent == some i) && HResList.allParent rest i

mutual
/-- Structure preservation by `copy`: the copy keeps the type, field name,
index, path and directive *values* — and, verbatim, the `pathRef` and
`directivesRef` slice identities — resets every `Context` to the fresh base
state, and rebinds every copied child's `Parent` to the new parent node. -/
inductive HCopies : HRes → HRes → Prop where
  | mk : ∀ i p t fn idx path pref ds dref ctx cs i2 p2 ctx2 cs2,
      ctx2 = Ctx.background →
      HResList.allParent cs2 i2 = true →
      HCopiesList cs cs2 →
      HCopies (.mk i p t fn idx path pref ds dref ctx cs)
              (.mk i2 p2 t fn idx path pref ds dref ctx2 cs2)

/-- Pointwise `HCopies` over the children lists. -/
inductive HCopiesList : HResList → HResList → Prop where
  | nil : HCopiesList .nil .nil
  | cons : ∀ c c2 cs cs2, HCopies c c2 → HCopiesList cs cs2 →
      HCopiesList (.cons c cs) (.cons c2 cs2)
end

def GoFieldList.length : GoFieldList → Nat
  | .nil => 0
  | .cons _ rest => rest.length + 1

/-- The struct fields a node of type `t` expands into: the fields of `t`
after removing at most one level of pointer indirection; none for other
types. -/
def fieldsToBuild : GoType → GoFieldList
  | .struct fs => fs
  | .ptr (.struct fs) => fs
  | _ => .nil

/-- The visible (exported) fields of a field list, each paired with its
ordinal position among *all* declared fields, starting at `i`. -/
def visibleEnumFrom : GoFieldList → Nat → List (Int × GoField)
  | .nil, _ => []
  | .cons f rest, i =>
    if f.exported then ((Int.ofNat i, f)) :: visibleEnumFrom rest (i + 1)
    else visibleEnumFrom rest (i + 1)

/-- One node's children agree exactly with the visible fields of its
(one-level-unpointered) struct type, in declaration order, with `Index` the
field's ordinal among all declared fields. -/
def childrenMatch (r : Resolver) : Prop :=
  r.children.toList.map (fun c => (c.index, c.fieldName, c.type)) =
    (visibleEnumFrom (fieldsToBuild r.type) 0).map (fun p => (p.1, p.2.name, p.2.type))

/-- The recursive well-formedness facts C3/C6 assert of every node of a
built tree: children match the visible fields, and every child's path
extends the node's path by the child's field name. -/
inductive BuiltSpec : Resolver → Prop where
  | mk : ∀ r, childrenMatch r →
      (∀ c ∈ r.children.toList, c.path = r.path ++ [c.fieldName]) →
      (∀ c ∈ r.children.toList, BuiltSpec c) →
      BuiltSpec r

/-- `len(Path) == depth from root`, phrased recursively from depth `d`. -/
inductive DepthOK : Nat → Resolver → Prop where
  | mk : ∀ d r, r.path.length = d →
      (∀ c ∈ r.children.toList, DepthOK (d + 1) c) → DepthOK d r

mutual
/-- Well-formedness of a Go struct type, guaranteed by the Go compiler:
within any one struct (reachable through the shapes the builder expands),
the declared field names are pairwise distinct. -/
def GoType.wf : GoType → Bool
  | .struct fs => wfFieldsGo fs []
  | .ptr (.struct fs) => wfFieldsGo fs []
  | _ => true

def wfFieldsGo : GoFieldList → List String → Bool
  | .nil, _ => true
  | .cons (.mk n ty _ _) rest, seen =>
    !(decide (n ∈ seen)) && GoType.wf ty && wfFieldsGo rest (n :: seen)
end

mutual
/-- All tags reachable through the visible fields the builder expands parse
successfully ("well-formed tags"). -/
def tagsWF (parse : String → Except String Directive) : GoType → Bool
  | .struct fs => tagsFieldsWF parse fs
  | .ptr (.struct fs) => tagsFieldsWF parse fs
  | _ => true

def tagsFieldsWF (parse : String → Except String Directive) : GoFieldList → Bool
  | .nil => true
  | .cons (.mk _ ty tag exp) rest =>
    (if exp then
      (match parseDirectives parse tag with | .ok _ => true | .error _ => false)
        && tagsWF parse ty
     else true)
      && tagsFieldsWF parse rest
end

/-- The success contract of the child loop (spec wording of §4.6 step 3):
children are processed in `Children` order, each child's produced value is
written into the assembly target at position `child.Index`, and the logged
executions are the children's executions in that order. -/
inductive Assembles : GoValue → ResolverList → GoValue → List DirEvent → Prop where
  | nil : ∀ uv, Assembles uv .nil uv []
  | cons : ∀ uv c rest cv clog uv2 uvF log,
      Resolver.resolve c = .ok (cv, clog, none) →
      setStructField uv c.index cv = some uv2 →
      Assembles uv2 rest uvF log →
      Assembles uv (.cons c rest) uvF (clog ++ log)

/-- The failure contract of the child loop (spec wording of §4.6 step 3):
some prefix of the children assembles successfully, the next child fails,
the loop stops there — the returned target carries exactly the successful
prefix's writes, the log ends with the failing child's executions (nothing
from the remaining siblings runs), and the error is a `ResolveError`
wrapping the cause and identifying the failing child. -/
inductive ChildFails : GoValue → ResolverList → GoValue → List DirEvent → GoErr → Prop where
  | here : ∀ uv c rest cv clog cerr,
      Resolver.resolve c = .ok (cv, clog, some cerr) →
      ChildFails uv (.cons c rest) uv clog (.resolveError cerr c.path c.fieldName)
  | there : ∀ uv c rest cv clog uv2 uvF log e,
      Resolver.resolve c = .ok (cv, clog, none) →
      setStructField uv c.index cv = some uv2 →
      ChildFails uv2 rest uvF log e →
      ChildFails uv (.cons c rest) uvF (clog ++ log) e

/-- The descent contract of `Lookup` (spec §4.5): each path segment is
matched against a child's field name, in order. -/
inductive Reaches : Resolver → List String → Resolver → Prop where
  | here : ∀ r, Reaches r [] r
  | step : ∀ r c s rest n, c ∈ r.children.toList → c.fieldName = s →
      Reaches c rest n → Reaches r (s :: rest) n

mutual
/-- No node of the tree carries any directive. -/
def noDirectives : Resolver → Bool
  | .mk _ _ _ _ ds _ cs => ds.isEmpty && noDirectivesList cs

def noDirectivesList : ResolverList → Bool
  | .nil => true
  | .cons c rest => noDirectives c && noDirectivesList rest
end

mutual
/-- Every node's context carries a `*Namespace` binding (possibly a typed
nil), so `r.Namespace()` cannot panic anywhere in the tree. -/
def ctxHasNs : Resolver → Bool
  | .mk _ _ _ _ _ ctx cs =>
    (match Ctx.value ctx ckNamespace with
     | some (.nsVal _) => true
     | _ => false) && ctxHasNsList cs

def ctxHasNsList : ResolverList → Bool
  | .nil => true
  | .cons c rest => ctxHasNs c && ctxHasNsList rest
end

mutual
/-- Shape consistency between a node's type and its children, as the
builder produces it: a node with children has a struct type after removing
at most one level of pointer indirection, and every child's `Index` is a
valid field position of that struct. -/
def shapeOK : Resolver → Bool
  | .mk t _ _ _ _ _ cs =>
    match cs with
    | .nil => true
    | .cons _ _ =>
      (match t.stripPtr with
       | .struct fs => shapeOKList cs fs.length
       | _ => false)

def shapeOKList : ResolverList → Nat → Bool
  | .nil, _ => true
  | .cons c rest, n =>
    decide (0 ≤ c.index) && decide (c.index.toNat < n) && shapeOK c && shapeOKList rest n
end

mutual
/-- The value a directive-free resolution produces (spec §8): the zero
value of the node's type, except that a node with children assembles its
children's values into the (possibly freshly allocated, pointer-attached)
underlying struct value. -/
def zeroResolved : Resolver → GoValue
  | .mk t _ _ _ _ _ cs =>
    match cs with
    | .nil => t.zeroValue
    | .cons _ _ =>
      let uv := zeroResolvedFold cs (if t.isPtr then t.stripPtr.zeroValue else t.zeroValue)
      if t.isPtr then .ptrTo uv else uv

def zeroResolvedFold : ResolverList → GoValue → GoValue
  | .nil, uv => uv
  | .cons c rest, uv =>
    zeroResolvedFold rest ((setStructField uv c.index (zeroResolved c)).getD uv)
end

/-! ## Claim C10: `Namespace()` panics when nothing was stored under the key -/

theorem runDirectives_panic_of_namespace (r : Resolver) (v : GoValue)
    (h : r.Namespace = .error ()) : r.runDirectives v = .error () := by
  rw [Resolver.runDirectives, h]

theorem resolve_panic_of_namespace (r : Resolver) (h : r.Namespace = .error ()) :
    r.resolve = .error () := by
  cases r with
  | mk t fn idx path ds ctx cs =>
    rw [Resolver.resolve, runDirectives_panic_of_namespace _ _ h]

/-- C10: if no option ever stored a `*Namespace` value into a node's
`Context`, then `Namespace()` — and therefore `validate()` (run by `New`)
and `Resolve` — performs a failing type assertion on a nil interface and
panics (modelled `.error ()`), rather than returning nil or surfacing the
configuration error; the `ErrNilNamespace` path is reached exactly when a
typed nil `*Namespace` was explicitly bound into the `Context`. -/
theorem c10_namespace_panics (r : Resolver)
    (h : Ctx.value r.context ckNamespace = none) :
    r.Namespace = .error () ∧ r.validate = .error () ∧ r.resolve = .error () ∧
    (∀ r2 : Resolver, r2.validate = .ok (some .nilNamespace) ↔
      Ctx.value r2.context ckNamespace = some (.nsVal none)) := by
  refine ⟨?_, ?_, ?_, ?_⟩
  · simp [Resolver.Namespace, h]
  · simp [Resolver.validate, Resolver.Namespace, h]
  · exact resolve_panic_of_namespace r (by simp [Resolver.Namespace, h])
  · intro r2
    cases hval : Ctx.value r2.context ckNamespace with
    | none => simp [Resolver.validate, Resolver.Namespace, hval]
    | some cv =>
      cases cv with
      | nsVal ns =>
        cases ns with
        | none => simp [Resolver.validate, Resolver.Namespace, hval]
        | some nsv => simp [Resolver.validate, Resolver.Namespace, hval]
      | otherVal => simp [Resolver.validate, Resolver.Namespace, hval]

/-- A node whose context was never given a namespace binding. -/
def bareNode : Resolver := .mk (.base "int") "" (-1) [] [] Ctx.background .nil

/-- Witness for C10 at a concrete node with an empty (background) context. -/
theorem c10_witness :
    Ctx.value bareNode.context ckNamespace = none ∧
    (bareNode.Namespace = .error () ∧ bareNode.validate = .error () ∧
      bareNode.resolve = .error () ∧
      (∀ r2 : Resolver, r2.validate = .ok (some .nilNamespace) ↔
        Ctx.value r2.context ckNamespace = some (.nsVal none))) :=
  ⟨rfl, c10_namespace_panics bareNode rfl⟩

/-! ## Claim C5: directive execution order and failure wrapping -/

theorem runDirectivesLoop_ok_none (nsv : Namespace) (path : List String) :
    ∀ (ds : List Directive) (v v2 : GoValue) (log : List DirEvent),
      runDirectivesLoop (some nsv) path ds v = .ok (v2, log, none) →
      log = ds.map (fun d => (path, d.name)) := by
  intro ds
  induction ds with
  | nil =>
    intro v v2 log h
    simp [runDirectivesLoop] at h
    simp [h]
  | cons d rest ih =>
    intro v v2 log h
    rw [runDirectivesLoop] at h
    cases hx : nsv.lookupExecutor d.name with
    | none => simp [hx] at h
    | some exe =>
      simp only [hx] at h
      cases hr : exe.run d path v with
      | mk v3 m? =>
        simp only [hr] at h
        cases m? with
        | some msg => simp at h
        | none =>
          cases hrec : runDirectivesLoop (some nsv) path rest v3 with
          | error u => simp [hrec] at h
          | ok out =>
            obtain ⟨v4, log4, e4⟩ := out
            simp only [hrec] at h
            simp at h
            obtain ⟨hv, hlog, he⟩ := h
            subst he
            simp [List.map, ← hlog, ih v3 v4 log4 hrec]

theorem runDirectivesLoop_ok_some (nsv : Namespace) (path : List String) :
    ∀ (ds : List Directive) (v v2 : GoValue) (log : List DirEvent) (e : GoErr),
      runDirectivesLoop (some nsv) path ds v = .ok (v2, log, some e) →
      ∃ ds1 d ds2, ds = ds1 ++ d :: ds2 ∧
        ((nsv.lookupExecutor d.name = none ∧
            e = .directiveExecutionError .missingExecutor d ∧
            log = ds1.map (fun d2 => (path, d2.name))) ∨
         (∃ exe msg, nsv.lookupExecutor d.name = some exe ∧
            e = .directiveExecutionError (.execFailure msg) d ∧
            log = ds1.map (fun d2 => (path, d2.name)) ++ [(path, d.name)])) := by
  intro ds
  induction ds with
  | nil =>
    intro v v2 log e h
    simp [runDirectivesLoop] at h
  | cons d rest ih =>
    intro v v2 log e h
    rw [runDirectivesLoop] at h
    cases hx : nsv.lookupExecutor d.name with
    | none =>
      simp only [hx] at h
      simp at h
      obtain ⟨hv, hlog, he⟩ := h
      exact ⟨[], d, rest, rfl, .inl ⟨hx, he.symm, by simp [hlog]⟩⟩
    | some exe =>
      simp only [hx] at h
      cases hr : exe.run d path v with
      | mk v3 m? =>
        simp only [hr] at h
        cases m? with
        | some msg =>
          simp at h
          obtain ⟨hv, hlog, he⟩ := h
          exact ⟨[], d, rest, rfl, .inr ⟨exe, msg, hx, he.symm, by simp [hlog]⟩⟩
        | none =>
          cases hrec : runDirectivesLoop (some nsv) path rest v3 with
          | error u => simp [hrec] at h
          | ok out =>
            obtain ⟨v4, log4, e4⟩ := out
            simp only [hrec] at h
            simp at h
            obtain ⟨hv, hlog, he⟩ := h
            subst he
            obtain ⟨ds1, d2, ds2, hsplit, hcase⟩ := ih v3 v4 log4 e hrec
            refine ⟨d :: ds1, d2, ds2, by simp [hsplit], ?_⟩
            cases hcase with
            | inl hc => exact .inl ⟨hc.1, hc.2.1, by simp [← hlog, hc.2.2]⟩
            | inr hc =>
              obtain ⟨exe2, msg, hl, he2, hlog2⟩ := hc
              exact .inr ⟨exe2, msg, hl, he2, by simp [← hlog, hlog2]⟩

/-- C5: when resolving one node whose context binds the namespace `nsv`,
directives run in declared order (on success the execution log lists
exactly the declared names, in order, all at this node's path); a missing
executor fails the node with a `DirectiveExecutionError` whose cause is the
missing-executor sentinel and which names the directive; an executor error
is wrapped into a `DirectiveExecutionError` carrying the directive's
identity, and no directive after the failing one executes (the log stops at
the failure). -/
theorem c5_directive_execution (r : Resolver) (nsv : Namespace) (v : GoValue)
    (hns : r.Namespace = .ok (some nsv)) :
    (∀ v2 log, r.runDirectives v = .ok (v2, log, none) →
        log = r.directives.map (fun d => (r.path, d.name))) ∧
    (∀ v2 log e, r.runDirectives v = .ok (v2, log, some e) →
        ∃ ds1 d ds2, r.directives = ds1 ++ d :: ds2 ∧
          ((nsv.lookupExecutor d.name = none ∧
              e = .directiveExecutionError .missingExecutor d ∧
              log = ds1.map (fun d2 => (r.path, d2.name))) ∨
           (∃ exe msg, nsv.lookupExecutor d.name = some exe ∧
              e = .directiveExecutionError (.execFailure msg) d ∧
              log = ds1.map (fun d2 => (r.path, d2.name)) ++ [(r.path, d.name)]))) := by
  constructor
  · intro v2 log h
    rw [Resolver.runDirectives, hns] at h
    exact runDirectivesLoop_ok_none nsv r.path r.directives v v2 log h
  · intro v2 log e h
    rw [Resolver.runDirectives, hns] at h
    exact runDirectivesLoop_ok_some nsv r.path r.directives v v2 log e h

def nsC5 : Namespace :=
  ⟨fun n =>
    if n = "okdir" then some ⟨fun _ _ _ => (.prim "int" "x", none)⟩
    else if n = "faildir" then some ⟨fun _ _ v => (v, some "nope")⟩
    else none⟩

def ctxC5 : Ctx := [(ckNamespace, .nsVal (some nsC5))]

def nodeC5 : Resolver :=
  .mk (.base "int") "F" 0 ["F"] [⟨"okdir", []⟩, ⟨"faildir", []⟩] ctxC5 .nil

/-- Witness for C5 at a concrete node: `okdir` runs, `faildir` fails, the
error wraps the cause with the directive, and the log stops at the
failure. -/
theorem c5_witness :
    nodeC5.Namespace = .ok (some nsC5) ∧
    nodeC5.runDirectives ((GoType.base "int").zeroValue) =
      .ok (.prim "int" "x", [(["F"], "okdir"), (["F"], "faildir")],
           some (.directiveExecutionError (.execFailure "nope") ⟨"faildir", []⟩)) ∧
    (∃ ds1 d ds2, nodeC5.directives = ds1 ++ d :: ds2 ∧
      ((nsC5.lookupExecutor d.name = none ∧
          (GoErr.directiveExecutionError (.execFailure "nope") ⟨"faildir", []⟩) =
            .directiveExecutionError .missingExecutor d ∧
          ([(["F"], "okdir"), (["F"], "faildir")] : List DirEvent) =
            ds1.map (fun d2 => (nodeC5.path, d2.name))) ∨
       (∃ exe msg, nsC5.lookupExecutor d.name = some exe ∧
          (GoErr.directiveExecutionError (.execFailure "nope") ⟨"faildir", []⟩) =
            .directiveExecutionError (.execFailure msg) d ∧
          ([(["F"], "okdir"), (["F"], "faildir")] : List DirEvent) =
            ds1.map (fun d2 => (nodeC5.path, d2.name)) ++ [(nodeC5.path, d.name)]))) :=
  ⟨rfl, rfl,
    (c5_directive_execution nodeC5 nsC5 ((GoType.base "int").zeroValue) rfl).2
      (.prim "int" "x") [(["F"], "okdir"), (["F"], "faildir")]
      (.directiveExecutionError (.execFailure "nope") ⟨"faildir", []⟩) rfl⟩

/-! ## Claim C4: the child loop -/

theorem resolveChildren_ok_none_iff :
    ∀ (cs : ResolverList) (uv uvF : GoValue) (log : List DirEvent),
      Resolver.resolveChildren cs uv = .ok (uvF, log, none) ↔ Assembles uv cs uvF log
  | .nil, uv, uvF, log => by
    constructor
    · intro h
      rw [Resolver.resolveChildren] at h
      simp at h
      obtain ⟨h1, h2⟩ := h
      subst h1
      subst h2
      exact .nil _
    · intro h
      cases h
      rw [Resolver.resolveChildren]
  | .cons c rest, uv, uvF, log => by
    constructor
    · intro h
      rw [Resolver.resolveChildren] at h
      cases hres : Resolver.resolve c with
      | error u => simp [hres] at h
      | ok out =>
        obtain ⟨cv, clog, ce?⟩ := out
        simp only [hres] at h
        cases ce? with
        | some cerr => simp at h
        | none =>
          cases hset : setStructField uv c.index cv with
          | none => simp [hset] at h
          | some uv2 =>
            simp only [hset] at h
            cases hrec : Resolver.resolveChildren rest uv2 with
            | error u => simp [hrec] at h
            | ok out2 =>
              obtain ⟨uvG, rlog, e?⟩ := out2
              simp only [hrec] at h
              simp at h
              obtain ⟨h1, h2, h3⟩ := h
              subst h1 h3
              rw [← h2]
              exact .cons uv c rest cv clog uv2 uvG rlog hres hset
                ((resolveChildren_ok_none_iff rest uv2 uvG rlog).mp hrec)
    · intro h
      cases h with
      | cons uvx cx restx cvx clogx uv2x uvFx logx hres hset hrest =>
        rw [Resolver.resolveChildren]
        simp only [hres, hset,
          (resolveChildren_ok_none_iff rest uv2x uvF logx).mpr hrest]

theorem resolveChildren_ok_some_iff :
    ∀ (cs : ResolverList) (uv uvF : GoValue) (log : List DirEvent) (e : GoErr),
      Resolver.resolveChildren cs uv = .ok (uvF, log, some e) ↔ ChildFails uv cs uvF log e
  | .nil, uv, uvF, log, e => by
    constructor
    · intro h
      rw [Resolver.resolveChildren] at h
      simp at h
    · intro h
      cases h
  | .cons c rest, uv, uvF, log, e => by
    constructor
    · intro h
      rw [Resolver.resolveChildren] at h
      cases hres : Resolver.resolve c with
      | error u => simp [hres] at h
      | ok out =>
        obtain ⟨cv, clog, ce?⟩ := out
        simp only [hres] at h
        cases ce? with
        | some cerr =>
          simp at h
          obtain ⟨h1, h2, h3⟩ := h
          subst h1 h3
          rw [← h2]
          exact .here uv c rest cv clog cerr hres
        | none =>
          cases hset : setStructField uv c.index cv with
          | none => simp [hset] at h
          | some uv2 =>
            simp only [hset] at h
            cases hrec : Resolver.resolveChildren rest uv2 with
            | error u => simp [hrec] at h
            | ok out2 =>
              obtain ⟨uvG, rlog, e2?⟩ := out2
              simp only [hrec] at h
              simp at h
              obtain ⟨h1, h2, h3⟩ := h
              subst h1 h3
              rw [← h2]
              exact .there uv c rest cv clog uv2 uvG rlog e hres hset
                ((resolveChildren_ok_some_iff rest uv2 uvG rlog e).mp hrec)
    · intro h
      cases h with
      | here uvx cx restx cvx clogx cerrx hres =>
        rw [Resolver.resolveChildren]
        simp only [hres]
      | there uvx cx restx cvx clogx uv2x uvFx logx ex hres hset hrest =>
        rw [Resolver.resolveChildren]
        simp only [hres, hset,
          (resolveChildren_ok_some_iff rest uv2x uvF logx e).mpr hrest]

/-- C4: the child loop resolves children in `Children` order; a successful
outcome is exactly an in-order assembly that writes each child's value at
position `child.Index`; an erroneous outcome is exactly a first-failure
abort: the successful prefix is assembled, the failing child's error is
wrapped in a `ResolveError` identifying that child, and the remaining
siblings are never resolved (the log ends at the failing child's
executions). -/
theorem c4_children_in_order (cs : ResolverList) (uv : GoValue) :
    (∀ uvF log, Resolver.resolveChildren cs uv = .ok (uvF, log, none) ↔
      Assembles uv cs uvF log) ∧
    (∀ uvF log e, Resolver.resolveChildren cs uv = .ok (uvF, log, some e) ↔
      ChildFails uv cs uvF log e) :=
  ⟨fun uvF log => resolveChildren_ok_none_iff cs uv uvF log,
   fun uvF log e => resolveChildren_ok_some_iff cs uv uvF log e⟩

/-! ## Claims C1 and C4: concrete two-field scenario -/

/-- Demo namespace: `seven` writes the value `7`; `boom` fails. -/
def nsDemo : Namespace :=
  ⟨fun n =>
    if n = "seven" then some ⟨fun _ _ _ => (.prim "int" "7", none)⟩
    else if n = "boom" then some ⟨fun _ _ v => (v, some "boom")⟩
    else none⟩

def ctxDemo : Ctx := [(ckNamespace, .nsVal (some nsDemo))]

/-- Field node `A` (index 0) whose `seven` directive succeeds. -/
def leafA : Resolver := .mk (.base "int") "A" 0 ["A"] [⟨"seven", []⟩] ctxDemo .nil

/-- Field node `B` (index 1) whose `boom` directive fails. -/
def leafB : Resolver := .mk (.base "int") "B" 1 ["B"] [⟨"boom", []⟩] ctxDemo .nil

/-- Root for a two-field struct `{A int "seven"; B int "boom"}`. -/
def rootAB : Resolver :=
  .mk (.struct (.cons (.mk "A" (.base "int") "seven" true)
        (.cons (.mk "B" (.base "int") "boom" true) .nil)))
    "" (-1) [] [] ctxDemo (.cons leafA (.cons leafB .nil))

/-- Witness for C4 at the two-field scenario: the loop's erroneous outcome
is exactly a first-failure abort after `A` was assembled. -/
theorem c4_witness :
    Resolver.resolveChildren (.cons leafA (.cons leafB .nil))
        (.structV (.cons (.prim "int" "") (.cons (.prim "int" "") .nil))) =
      .ok (.structV (.cons (.prim "int" "7") (.cons (.prim "int" "") .nil)),
           [(["A"], "seven"), (["B"], "boom")],
           some (.resolveError (.directiveExecutionError (.execFailure "boom") ⟨"boom", []⟩)
             ["B"] "B")) ∧
    ChildFails (.structV (.cons (.prim "int" "") (.cons (.prim "int" "") .nil)))
      (.cons leafA (.cons leafB .nil))
      (.structV (.cons (.prim "int" "7") (.cons (.prim "int" "") .nil)))
      [(["A"], "seven"), (["B"], "boom")]
      (.resolveError (.directiveExecutionError (.execFailure "boom") ⟨"boom", []⟩) ["B"] "B") :=
  ⟨rfl,
   ((c4_children_in_order (.cons leafA (.cons leafB .nil))
        (.structV (.cons (.prim "int" "") (.cons (.prim "int" "") .nil)))).2
      (.structV (.cons (.prim "int" "7") (.cons (.prim "int" "") .nil)))
      [(["A"], "seven"), (["B"], "boom")]
      (.resolveError (.directiveExecutionError (.execFailure "boom") ⟨"boom", []⟩) ["B"] "B")).mp
    rfl⟩

/-- C1, counterexample: when the *second* child's directive fails, `resolve`
returns the in-progress value alongside the error, and that value already
contains the first sibling's resolved result (`A = 7`, not the zero value
of `A`'s type) — so the caller does receive a partially populated output,
contradicting the claim that the returned value contains no results from
siblings resolved before the failure. -/
theorem c1_counterexample :
    Resolver.resolve rootAB =
      .ok (.structV (.cons (.prim "int" "7") (.cons (.prim "int" "") .nil)),
           [(["A"], "seven"), (["B"], "boom")],
           some (.resolveError (.directiveExecutionError (.execFailure "boom") ⟨"boom", []⟩)
             ["B"] "B")) ∧
    GoValueList.get? (.cons (.prim "int" "7") (.cons (.prim "int" "") .nil)) 0 =
      some (.prim "int" "7") ∧
    (GoValue.prim "int" "7") ≠ (GoType.base "int").zeroValue :=
  ⟨rfl, rfl, by decide⟩

/-- C1, amended: when the *first* child fails, nothing has been assembled:
`resolve` returns the directive-processed value with no child result
written into it (for a pointer-shaped node, a pointer to the untouched
fresh underlying value), the execution log ends with the failing child's
executions — the directives of the later siblings never run — and the only
error is the `ResolveError` naming the failing child. -/
theorem c1_first_child_failure (t : GoType) (fn : String) (idx : Int)
    (path : List String) (ds : List Directive) (ctx : Ctx) (c : Resolver)
    (rest : ResolverList) (v1 : GoValue) (log1 : List DirEvent)
    (cv : GoValue) (clog : List DirEvent) (cerr : GoErr)
    (hdirs : Resolver.runDirectives (.mk t fn idx path ds ctx (.cons c rest)) t.zeroValue =
      .ok (v1, log1, none))
    (hc : Resolver.resolve c = .ok (cv, clog, some cerr)) :
    Resolver.resolve (.mk t fn idx path ds ctx (.cons c rest)) =
      .ok ((if t.isPtr then GoValue.ptrTo t.stripPtr.zeroValue else v1), log1 ++ clog,
           some (.resolveError cerr c.path c.fieldName)) := by
  rw [Resolver.resolve]
  simp only [hdirs]
  have hch : Resolver.resolveChildren (.cons c rest)
      (if t.isPtr then t.stripPtr.zeroValue else v1) =
      .ok ((if t.isPtr then t.stripPtr.zeroValue else v1), clog,
           some (.resolveError cerr c.path c.fieldName)) := by
    rw [Resolver.resolveChildren]
    simp only [hc]
  simp only [hch]
  cases hp : t.isPtr with
  | true => simp
  | false => simp

/-- The `Config{Host string "required"; Port int "default"}` scenario of the
spec: `required` fails on an empty value, `default` would write `8080`. -/
def nsHostPort : Namespace :=
  ⟨fun n =>
    if n = "required" then
      some ⟨fun _ _ v => (v, if v = .prim "string" "" then some "required" else none)⟩
    else if n = "default" then
      some ⟨fun _ _ v => (if v = .prim "int" "" then .prim "int" "8080" else v, none)⟩
    else none⟩

def ctxHostPort : Ctx := [(ckNamespace, .nsVal (some nsHostPort))]

def hostNode : Resolver :=
  .mk (.base "string") "Host" 0 ["Host"] [⟨"required", []⟩] ctxHostPort .nil

def portNode : Resolver :=
  .mk (.base "int") "Port" 1 ["Port"] [⟨"default", []⟩] ctxHostPort .nil

def configRoot : Resolver :=
  .mk (.struct (.cons (.mk "Host" (.base "string") "required" true)
        (.cons (.mk "Port" (.base "int") "default" true) .nil)))
    "" (-1) [] [] ctxHostPort (.cons hostNode (.cons portNode .nil))

/-- Witness for the amended C1 at the spec's `Host`/`Port` scenario:
`required` fails at `Host`, nothing is assembled into the returned value,
`Port`'s `default` never executes (it is absent from the log), and the only
error names `Host`. -/
theorem c1_witness :
    Resolver.runDirectives configRoot
        ((GoType.struct (.cons (.mk "Host" (.base "string") "required" true)
          (.cons (.mk "Port" (.base "int") "default" true) .nil))).zeroValue) =
      .ok (.structV (.cons (.prim "string" "") (.cons (.prim "int" "") .nil)), [], none) ∧
    Resolver.resolve hostNode =
      .ok (.prim "string" "", [(["Host"], "required")],
           some (.directiveExecutionError (.execFailure "required") ⟨"required", []⟩)) ∧
    Resolver.resolve configRoot =
      .ok (.structV (.cons (.prim "string" "") (.cons (.prim "int" "") .nil)),
           [(["Host"], "required")],
           some (.resolveError (.directiveExecutionError (.execFailure "required")
             ⟨"required", []⟩) ["Host"] "Host")) :=
  ⟨rfl, rfl, by
    have h := c1_first_child_failure
      (.struct (.cons (.mk "Host" (.base "string") "required" true)
        (.cons (.mk "Port" (.base "int") "default" true) .nil)))
      "" (-1) [] [] ctxHostPort hostNode (.cons portNode .nil)
      (.structV (.cons (.prim "string" "") (.cons (.prim "int" "") .nil))) []
      (.prim "string" "") [(["Host"], "required")]
      (.directiveExecutionError (.execFailure "required") ⟨"required", []⟩) rfl rfl
    simpa [configRoot, hostNode, Resolver.path, Resolver.fieldName, GoType.isPtr] using h⟩

/-! ## Claim C8: directive-free resolution produces the zero-shaped value -/

theorem GoValueList.set_length : ∀ (vs : GoValueList) (n : Nat) (v : GoValue),
    (vs.set n v).length = vs.length
  | .nil, _, _ => rfl
  | .cons _ rest, 0, v => rfl
  | .cons w rest, n + 1, v => by
    simp [GoValueList.set, GoValueList.length, GoValueList.set_length rest n v]

theorem zeroFields_length : ∀ fs : GoFieldList, (zeroFields fs).length = fs.length
  | .nil => rfl
  | .cons (.mk _ t _ _) rest => by
    simp [zeroFields, GoValueList.length, GoFieldList.length, zeroFields_length rest]

theorem runDirectivesLoop_nil (ns : Option Namespace) (path : List String) (v : GoValue) :
    runDirectivesLoop ns path [] v = .ok (v, [], none) := rfl

mutual
theorem resolve_noDirs : ∀ (r : Resolver),
    noDirectives r = true → ctxHasNs r = true → shapeOK r = true →
    r.resolve = .ok (zeroResolved r, [], none)
  | .mk t fn idx path ds ctx cs => by
    intro hnd hctx hshape
    rw [noDirectives] at hnd
    simp only [Bool.and_eq_true] at hnd
    obtain ⟨hds, hndl⟩ := hnd
    rw [List.isEmpty_iff] at hds
    subst hds
    rw [ctxHasNs] at hctx
    simp only [Bool.and_eq_true] at hctx
    obtain ⟨hcv, hctxl⟩ := hctx
    cases hval : Ctx.value ctx ckNamespace with
    | none => rw [hval] at hcv; simp at hcv
    | some cv =>
      cases cv with
      | otherVal => rw [hval] at hcv; simp at hcv
      | nsVal x =>
        have hns : (Resolver.mk t fn idx path [] ctx cs).Namespace = .ok x := by
          simp [Resolver.Namespace, Resolver.context, hval]
        have hrd : Resolver.runDirectives (.mk t fn idx path [] ctx cs) t.zeroValue =
            .ok (t.zeroValue, [], none) := by
          rw [Resolver.runDirectives, hns]
          rfl
        rw [Resolver.resolve]
        simp only [hrd]
        cases cs with
        | nil => simp [zeroResolved]
        | cons c crest =>
          cases t with
          | base n => simp [shapeOK, GoType.stripPtr] at hshape
          | struct fs =>
            simp only [shapeOK, GoType.stripPtr] at hshape
            have hch := resolveChildren_noDirs (.cons c crest) (zeroFields fs)
              fs.length hndl hctxl hshape (zeroFields_length fs)
            simp only [GoType.zeroValue, GoType.isPtr, Bool.false_eq_true, if_false] at hch ⊢
            simp only [hch]
            simp [zeroResolved, GoType.isPtr, GoType.zeroValue]
          | ptr e =>
            cases e with
            | base n => simp [shapeOK, GoType.stripPtr] at hshape
            | ptr e2 => simp [shapeOK, GoType.stripPtr] at hshape
            | struct fs =>
              simp only [shapeOK, GoType.stripPtr] at hshape
              have hch := resolveChildren_noDirs (.cons c crest) (zeroFields fs)
                fs.length hndl hctxl hshape (zeroFields_length fs)
              simp only [GoType.isPtr, GoType.stripPtr, GoType.zeroValue, if_true] at hch ⊢
              simp only [hch]
              simp [zeroResolved, GoType.isPtr, GoType.stripPtr, GoType.zeroValue]

theorem resolveChildren_noDirs : ∀ (cs : ResolverList) (vs : GoValueList) (n : Nat),
    noDirectivesList cs = true → ctxHasNsList cs = true → shapeOKList cs n = true →
    vs.length = n →
    Resolver.resolveChildren cs (.structV vs) =
      .ok (zeroResolvedFold cs (.structV vs), [], none)
  | .nil, vs, n => by
    intro _ _ _ _
    rw [Resolver.resolveChildren, zeroResolvedFold]
  | .cons c rest, vs, n => by
    intro hnd hctx hshape hlen
    simp only [noDirectivesList, Bool.and_eq_true] at hnd
    simp only [ctxHasNsList, Bool.and_eq_true] at hctx
    simp only [shapeOKList, Bool.and_eq_true, decide_eq_true_eq] at hshape
    obtain ⟨hndc, hndl⟩ := hnd
    obtain ⟨hctxc, hctxl⟩ := hctx
    obtain ⟨⟨⟨hge, hlt⟩, hsc⟩, hsl⟩ := hshape
    have hres := resolve_noDirs c hndc hctxc hsc
    have hset : setStructField (.structV vs) c.index (zeroResolved c) =
        some (.structV (vs.set c.index.toNat (zeroResolved c))) := by
      rw [setStructField]
      rw [if_pos ⟨hge, by rw [hlen]; exact hlt⟩]
    have hrec := resolveChildren_noDirs rest
      (vs.set c.index.toNat (zeroResolved c)) n hndl hctxl hsl
      (by rw [GoValueList.set_length, hlen])
    rw [Resolver.resolveChildren]
    simp only [hres, hset, hrec]
    rw [zeroResolvedFold]
    simp [hset]
end

/-- C8: resolving a tree in which no node carries any directive (with the
namespace bound everywhere, as `New` + `WithNamespace` produce, and the
builder's shape consistency) succeeds with no error and yields the
recursively zero-shaped value `zeroResolved`: leaves are their type's zero
value, and a pointer-typed node with children contributes a freshly
allocated underlying record attached behind a pointer. -/
theorem c8_zero_resolution (r : Resolver)
    (h1 : noDirectives r = true) (h2 : ctxHasNs r = true) (h3 : shapeOK r = true) :
    r.resolve = .ok (zeroResolved r, [], none) ∧
    (r.IsLeaf = true → zeroResolved r = r.type.zeroValue) ∧
    (r.IsLeaf = false → r.type.isPtr = true → ∃ uv, zeroResolved r = .ptrTo uv) := by
  refine ⟨resolve_noDirs r h1 h2 h3, ?_, ?_⟩
  · intro hleaf
    cases r with
    | mk t fn idx path ds ctx cs =>
      cases cs with
      | nil => rw [zeroResolved]; rfl
      | cons c crest => simp [Resolver.IsLeaf, Resolver.children] at hleaf
  · intro hleaf hptr
    cases r with
    | mk t fn idx path ds ctx cs =>
      cases cs with
      | nil => simp [Resolver.IsLeaf, Resolver.children] at hleaf
      | cons c crest =>
        simp only [Resolver.type] at hptr
        refine ⟨zeroResolvedFold (.cons c crest)
          (if t.isPtr then t.stripPtr.zeroValue else t.zeroValue), ?_⟩
        rw [zeroResolved]
        simp [hptr]

/-- A directive-free tree for `struct{P *struct{X int}}`, namespace bound
at every node. -/
def xNode : Resolver := .mk (.base "int") "X" 0 ["P", "X"] [] ctxDemo .nil

def pNode : Resolver :=
  .mk (.ptr (.struct (.cons (.mk "X" (.base "int") "" true) .nil)))
    "P" 0 ["P"] [] ctxDemo (.cons xNode .nil)

def rootP : Resolver :=
  .mk (.struct (.cons
        (.mk "P" (.ptr (.struct (.cons (.mk "X" (.base "int") "" true) .nil))) "" true) .nil))
    "" (-1) [] [] ctxDemo (.cons pNode .nil)

/-- Witness for C8: the directive-free `struct{P *struct{X int}}` tree
resolves to a struct whose `P` field points at a freshly allocated zero
`struct{X int}` record. -/
theorem c8_witness :
    noDirectives rootP = true ∧ ctxHasNs rootP = true ∧ shapeOK rootP = true ∧
    zeroResolved rootP =
      .structV (.cons (.ptrTo (.structV (.cons (.prim "int" "") .nil))) .nil) ∧
    rootP.resolve = .ok (zeroResolved rootP, [], none) :=
  ⟨rfl, rfl, rfl, rfl, (c8_zero_resolution rootP rfl rfl rfl).1⟩

/-! ## Claim C9: `Lookup` descends by matching child field names -/

mutual
/-- Field names are pairwise distinct among the children of every node (a
consequence of Go struct typing for built trees). -/
def namesDistinct : Resolver → Bool
  | .mk _ _ _ _ _ _ cs =>
    decide ((cs.toList.map Resolver.fieldName).Nodup) && namesDistinctList cs

def namesDistinctList : ResolverList → Bool
  | .nil => true
  | .cons c rest => namesDistinct c && namesDistinctList rest
end

theorem namesDistinctList_mem : ∀ (cs : ResolverList) (c : Resolver),
    c ∈ cs.toList → namesDistinctList cs = true → namesDistinct c = true
  | .nil, c => by intro h _; simp [ResolverList.toList] at h
  | .cons c0 crest, c => by
    intro hmem hd
    simp only [namesDistinctList, Bool.and_eq_true] at hd
    rw [ResolverList.toList] at hmem
    rcases List.mem_cons.mp hmem with h | h
    · rw [h]; exact hd.1
    · exact namesDistinctList_mem crest c h hd.2

theorem findByName_some (s : String) :
    ∀ (cs : ResolverList) (c : Resolver),
      cs.findByName s = some c → c ∈ cs.toList ∧ c.fieldName = s
  | .nil, c => by
    intro h
    rw [ResolverList.findByName] at h
    simp at h
  | .cons c0 crest, c => by
    intro h
    rw [ResolverList.findByName] at h
    by_cases hname : c0.fieldName = s
    · rw [if_pos hname] at h
      cases h
      exact ⟨by simp [ResolverList.toList], hname⟩
    · rw [if_neg hname] at h
      obtain ⟨hmem, hn⟩ := findByName_some s crest c h
      exact ⟨by simp [ResolverList.toList]; right; exact hmem, hn⟩

theorem findByName_of_mem (s : String) :
    ∀ (cs : ResolverList) (c : Resolver),
      c ∈ cs.toList → c.fieldName = s →
      (cs.toList.map Resolver.fieldName).Nodup →
      cs.findByName s = some c
  | .nil, c => by intro h _ _; simp [ResolverList.toList] at h
  | .cons c0 crest, c => by
    intro hmem hname hnd
    rw [ResolverList.toList] at hmem hnd
    simp only [List.map_cons, List.nodup_cons] at hnd
    rw [ResolverList.findByName]
    rcases List.mem_cons.mp hmem with h | h
    · subst h
      rw [if_pos hname]
    · by_cases h0 : c0.fieldName = s
      · exfalso
        apply hnd.1
        rw [h0, ← hname]
        exact List.mem_map_of_mem Resolver.fieldName h
      · rw [if_neg h0]
        exact findByName_of_mem s crest c h hname hnd.2

theorem findResolver_some_iff :
    ∀ (segs : List String) (r : Resolver), namesDistinct r = true →
      ∀ n, findResolver r segs = some n ↔ Reaches r segs n
  | [], r => by
    intro _ n
    rw [findResolver]
    constructor
    · intro h
      cases h
      exact .here _
    · intro h
      cases h with
      | here => rfl
  | s :: rest, r => by
    intro hd n
    have hd2 : namesDistinct r = true := hd
    cases r with
    | mk t fn idx path ds ctx cs =>
      simp only [namesDistinct, Bool.and_eq_true, decide_eq_true_eq] at hd
      rw [findResolver]
      constructor
      · intro h
        cases hfind : (Resolver.mk t fn idx path ds ctx cs).children.findByName s with
        | none => rw [hfind] at h; simp at h
        | some c =>
          rw [hfind] at h
          obtain ⟨hmem, hname⟩ :=
            findByName_some s (Resolver.mk t fn idx path ds ctx cs).children c hfind
          exact .step _ c s rest n hmem hname
            ((findResolver_some_iff rest c
              (namesDistinctList_mem cs c (by simpa [Resolver.children] using hmem) hd.2)
              n).mp h)
      · intro h
        cases h with
        | step _ c _ _ _ hmem hname hre =>
          rw [findByName_of_mem s (Resolver.mk t fn idx path ds ctx cs).children c hmem hname
            (by simpa [Resolver.children] using hd.1)]
          exact (findResolver_some_iff rest c
            (namesDistinctList_mem cs c (by simpa [Resolver.children] using hmem) hd.2)
            n).mpr hre

/-- C9: `Lookup` splits the dotted path on `"."` and descends from the
receiver by matching each segment, in order, against a child's field name
(`Reaches`); it returns exactly the node reached after all segments match,
and absent (`nil`) precisely when no node is reachable that way — never a
partial intermediate node. -/
theorem c9_lookup (r : Resolver) (p : String) (h : namesDistinct r = true) :
    (∀ n, r.Lookup p = some n ↔ Reaches r (goSplitChar '.' p) n) ∧
    (r.Lookup p = none ↔ ∀ n, ¬ Reaches r (goSplitChar '.' p) n) := by
  have hiff := findResolver_some_iff (goSplitChar '.' p) r h
  refine ⟨fun n => hiff n, ?_⟩
  rw [Resolver.Lookup]
  constructor
  · intro hnone n hre
    rw [← hiff n] at hre
    rw [hnone] at hre
    cases hre
  · intro hno
    cases hfind : findResolver r (goSplitChar '.' p) with
    | none => rfl
    | some n => exact absurd ((hiff n).mp hfind) (hno n)

/-- A two-level tree `{A: {B: int}}` for the lookup witness. -/
def bNode : Resolver := .mk (.base "int") "B" 0 ["A", "B"] [] ctxDemo .nil

def aNode : Resolver :=
  .mk (.struct (.cons (.mk "B" (.base "int") "" true) .nil)) "A" 0 ["A"] [] ctxDemo
    (.cons bNode .nil)

def rootLk : Resolver :=
  .mk (.struct (.cons
        (.mk "A" (.struct (.cons (.mk "B" (.base "int") "" true) .nil)) "" true) .nil))
    "" (-1) [] [] ctxDemo (.cons aNode .nil)

/-- Witness for C9: `Lookup "A.B"` reaches `bNode` by stepwise field-name
matching, and `Lookup "A.C"` is absent with nothing reachable. -/
theorem c9_witness :
    namesDistinct rootLk = true ∧
    rootLk.Lookup "A.B" = some bNode ∧
    Reaches rootLk (goSplitChar '.' "A.B") bNode ∧
    rootLk.Lookup "A.C" = none ∧
    (∀ n, ¬ Reaches rootLk (goSplitChar '.' "A.C") n) :=
  ⟨rfl, rfl, ((c9_lookup rootLk "A.B" rfl).1 bNode).mp rfl,
   rfl, (c9_lookup rootLk "A.C" rfl).2.mp rfl⟩

/-! ## Claim C7: tag parsing, duplicates, and error wrapping -/

/-- The segments the spec says are parsed: split on `";"`, each segment
trimmed, empty segments ignored. -/
def cleanSegments (tag : String) : List String :=
  ((goSplitChar ';' (goTrimSpace tag)).map goTrimSpace).filter (fun s => s ≠ "")

/-- Spec-level parsing of already-cleaned segments: parse each in order,
the first duplicate name aborts with `duplicateDirective`.  (No trimming
and no skipping — equivalence with the implementation's loop is the first
conjunct of the C7 theorem.) -/
def parseSegsPlain (parse : String → Except String Directive) :
    List String → List String → Except ParseErr (List Directive)
  | [], _ => .ok []
  | s :: rest, existed =>
    match parse s with
    | .error e => .error (.external e)
    | .ok d =>
      if d.name ∈ existed then .error (.duplicateDirective d.name)
      else
        match parseSegsPlain parse rest (d.name :: existed) with
        | .error e => .error e
        | .ok ds => .ok (d :: ds)

theorem parseDirectivesLoop_eq_plain (parse : String → Except String Directive) :
    ∀ (segs : List String) (existed : List String),
      parseDirectivesLoop parse segs existed =
        parseSegsPlain parse ((segs.map goTrimSpace).filter (fun s => s ≠ "")) existed
  | [], existed => by simp [parseDirectivesLoop, parseSegsPlain]
  | seg :: rest, existed => by
    by_cases hs : goTrimSpace seg = ""
    · simp [parseDirectivesLoop, hs, List.filter_cons,
        parseDirectivesLoop_eq_plain parse rest existed]
    · simp [parseDirectivesLoop, hs, List.filter_cons, parseSegsPlain,
        parseDirectivesLoop_eq_plain parse rest]

theorem parseSegsPlain_append (parse : String → Except String Directive) :
    ∀ (segs1 segs2 : List String) (ex : List String) (ds1 : List Directive),
      parseSegsPlain parse segs1 ex = .ok ds1 →
      ∃ ex2, parseSegsPlain parse (segs1 ++ segs2) ex =
          (parseSegsPlain parse segs2 ex2).map (fun ds => ds1 ++ ds) ∧
        (∀ m, m ∈ ex2 ↔ m ∈ ds1.map Directive.name ∨ m ∈ ex)
  | [], segs2, ex, ds1 => by
    intro h
    rw [parseSegsPlain] at h
    cases h
    refine ⟨ex, ?_, by simp⟩
    simp only [List.nil_append]
    cases parseSegsPlain parse segs2 ex <;> simp [Except.map]
  | s :: rest, segs2, ex, ds1 => by
    intro h
    rw [parseSegsPlain] at h
    cases hp : parse s with
    | error e => simp only [hp] at h; simp at h
    | ok d =>
      simp only [hp] at h
      by_cases hdup : d.name ∈ ex
      · rw [if_pos hdup] at h; simp at h
      · rw [if_neg hdup] at h
        cases hrec : parseSegsPlain parse rest (d.name :: ex) with
        | error e => simp only [hrec] at h; simp at h
        | ok ds =>
          simp only [hrec] at h
          simp at h
          subst h
          obtain ⟨ex2, heq, hmem⟩ :=
            parseSegsPlain_append parse rest segs2 (d.name :: ex) ds hrec
          refine ⟨ex2, ?_, ?_⟩
          · rw [List.cons_append, parseSegsPlain]
            simp only [hp, if_neg hdup, heq]
            cases parseSegsPlain parse segs2 ex2 <;> simp [Except.map]
          · intro m
            rw [hmem m]
            simp only [List.map_cons, List.mem_cons]
            tauto

theorem buildDirsPath_err (parse : String → Except String Directive)
    (fn tag : String) (pp : List String) (pe : ParseErr)
    (h : parseDirectives parse tag = .error pe) :
    buildDirsPath parse fn tag (some pp) = .error (.parseDirectivesErr pe) := by
  rw [buildDirsPath]
  simp only [h]

theorem buildResolver_tagErr (parse : String → Except String Directive)
    (t : GoType) (fn tag : String) (pp : List String) (pe : ParseErr)
    (h : parseDirectives parse tag = .error pe) :
    buildResolver parse t fn tag (some pp) = .error (.parseDirectivesErr pe) := by
  have hd := buildDirsPath_err parse fn tag pp pe h
  cases t with
  | base n => simp only [buildResolver, hd]
  | struct fs => simp only [buildResolver, hd]
  | ptr e => cases e <;> simp only [buildResolver, hd]

theorem buildChildren_first_fail (parse : String → Except String Directive) :
    ∀ (l1 : List GoField) (fs : GoFieldList) (pp : List String) (i : Nat)
      (f : GoField) (l2 : List GoField) (e : BuildErr),
      fs.toList = l1 ++ f :: l2 →
      (∀ f2 ∈ l1, f2.exported = true →
        ∃ c, buildResolver parse f2.type f2.name f2.tag (some pp) = .ok c) →
      f.exported = true →
      buildResolver parse f.type f.name f.tag (some pp) = .error e →
      buildChildrenFn parse pp fs i = .error (.buildChildErr (pp ++ [f.name]) e)
  | [], fs, pp, i, f, l2, e => by
    intro hsplit hpre hexp herr
    cases fs with
    | nil => simp [GoFieldList.toList] at hsplit
    | cons f0 rest =>
      rw [GoFieldList.toList] at hsplit
      rw [List.nil_append] at hsplit
      injection hsplit with h1 h2
      subst h1
      cases f0 with
      | mk n ty tg ex =>
        rw [GoField.exported] at hexp
        simp only [GoField.type, GoField.name, GoField.tag] at herr
        rw [buildChildrenFn]
        simp only [hexp, if_true, herr]
        rw [GoField.name]
  | f1 :: l1x, fs, pp, i, f, l2, e => by
    intro hsplit hpre hexp herr
    cases fs with
    | nil => simp [GoFieldList.toList] at hsplit
    | cons f0 rest =>
      rw [GoFieldList.toList] at hsplit
      rw [List.cons_append] at hsplit
      injection hsplit with h1 h2
      subst h1
      have hrec := buildChildren_first_fail parse l1x rest pp (i + 1) f l2 e h2
        (fun f2 hf2 hf2e => hpre f2 (by simp [hf2]) hf2e) hexp herr
      cases f0 with
      | mk n1 ty1 tg1 ex1 =>
        rw [buildChildrenFn]
        cases hex : ex1 with
        | false => simp only [if_false, Bool.false_eq_true]; exact hrec
        | true =>
          obtain ⟨c, hc⟩ := hpre (.mk n1 ty1 tg1 ex1) (by simp)
            (by rw [GoField.exported]; exact hex)
          simp only [GoField.type, GoField.name, GoField.tag] at hc
          simp only [hex, if_true, hc]
          simp only [hrec]

/-- C7: parsing a field's tag (i) is exactly: split the raw string on ";",
trim each segment, ignore empty segments, and parse each remaining segment
in order with the external parser; (ii) within one field the directive
names must be pairwise distinct — the first segment whose parsed name
repeats an earlier one aborts with `duplicateDirective` naming that
directive; (iii) a field whose tag fails to parse (unparsable segment or
duplicate) aborts the whole field loop, the error wrapping the parse error
with the field's dotted path. -/
theorem c7_tag_parse_and_wrap (parse : String → Except String Directive) :
    (∀ tag, parseDirectives parse tag = parseSegsPlain parse (cleanSegments tag) []) ∧
    (∀ tag segs1 s segs2 ds1 d,
        cleanSegments tag = segs1 ++ s :: segs2 →
        parseSegsPlain parse segs1 [] = .ok ds1 →
        parse s = .ok d → d.name ∈ ds1.map Directive.name →
        parseDirectives parse tag = .error (.duplicateDirective d.name)) ∧
    (∀ (fs : GoFieldList) (pp : List String) (i : Nat) (l1 : List GoField)
        (f : GoField) (l2 : List GoField) (pe : ParseErr),
        fs.toList = l1 ++ f :: l2 →
        (∀ f2 ∈ l1, f2.exported = true →
          ∃ c, buildResolver parse f2.type f2.name f2.tag (some pp) = .ok c) →
        f.exported = true →
        parseDirectives parse f.tag = .error pe →
        buildChildrenFn parse pp fs i =
          .error (.buildChildErr (pp ++ [f.name]) (.parseDirectivesErr pe))) := by
  refine ⟨?_, ?_, ?_⟩
  · intro tag
    exact parseDirectivesLoop_eq_plain parse (goSplitChar ';' (goTrimSpace tag)) []
  · intro tag segs1 s segs2 ds1 d hclean hok hps hdup
    have h0 : parseDirectives parse tag = parseSegsPlain parse (cleanSegments tag) [] :=
      parseDirectivesLoop_eq_plain parse (goSplitChar ';' (goTrimSpace tag)) []
    rw [h0, hclean]
    obtain ⟨ex2, heq, hmem⟩ := parseSegsPlain_append parse segs1 (s :: segs2) [] ds1 hok
    rw [heq]
    rw [parseSegsPlain]
    simp only [hps]
    rw [if_pos ((hmem d.name).mpr (.inl hdup))]
    rfl
  · intro fs pp i l1 f l2 pe hsplit hpre hexp hperr
    exact buildChildren_first_fail parse l1 fs pp i f l2 _ hsplit hpre hexp
      (buildResolver_tagErr parse f.type f.name f.tag pp pe hperr)

/-- A concrete external directive parser: rejects the segment `"bad"`,
parses any other segment as a directive named by the whole segment. -/
def parseStrict (s : String) : Except String Directive :=
  if s = "bad" then .error "unparsable" else .ok ⟨s, []⟩

/-- Witness for C7: (i) `" a; b ;;a"` is cleaned to `["a", "b", "a"]`;
(ii) the tag `"a; b; a"`, whose third segment repeats the name `a`, aborts
with `duplicateDirective "a"`; (iii) in a struct whose field `B` carries
the unparsable tag `"bad"` after a well-tagged field `A`, the field loop
fails with the parse error wrapped with `B`'s path. -/
theorem c7_witness :
    cleanSegments " a; b ;;a" = ["a", "b", "a"] ∧
    parseDirectives parseStrict " a; b ;;a" =
      parseSegsPlain parseStrict (cleanSegments " a; b ;;a") [] ∧
    parseDirectives parseStrict "a; b; a" = .error (.duplicateDirective "a") ∧
    buildChildrenFn parseStrict [] (.cons (.mk "A" (.base "int") "x" true)
        (.cons (.mk "B" (.base "int") "bad" true) .nil)) 0 =
      .error (.buildChildErr ["B"] (.parseDirectivesErr (.external "unparsable"))) := by
  refine ⟨rfl, (c7_tag_parse_and_wrap parseStrict).1 " a; b ;;a", ?_, ?_⟩
  · exact (c7_tag_parse_and_wrap parseStrict).2.1 "a; b; a" ["a", "b"] "a" []
      [⟨"a", []⟩, ⟨"b", []⟩] ⟨"a", []⟩ rfl rfl rfl (by decide)
  · exact (c7_tag_parse_and_wrap parseStrict).2.2
      (.cons (.mk "A" (.base "int") "x" true) (.cons (.mk "B" (.base "int") "bad" true) .nil))
      [] 0 [.mk "A" (.base "int") "x" true] (.mk "B" (.base "int") "bad" true) []
      (.external "unparsable") rfl
      (by
        intro f2 hf2 _
        simp at hf2
        subst hf2
        exact ⟨.mk (.base "int") "A" (-1) ["A"] [⟨"x", []⟩] Ctx.background .nil, rfl⟩)
      rfl rfl

/-! ## Claims C3 and C6: structure of built trees -/

theorem setIndex_fields : ∀ (c : Resolver) (i : Int),
    (c.setIndex i).type = c.type ∧ (c.setIndex i).fieldName = c.fieldName ∧
    (c.setIndex i).index = i ∧ (c.setIndex i).path = c.path ∧
    (c.setIndex i).context = c.context ∧ (c.setIndex i).children = c.children
  | .mk t fn idx p ds ctx cs, i => by
    simp [Resolver.setIndex, Resolver.type, Resolver.fieldName, Resolver.index,
      Resolver.path, Resolver.context, Resolver.children]

theorem BuiltSpec_setIndex (c : Resolver) (i : Int) (h : BuiltSpec c) :
    BuiltSpec (c.setIndex i) := by
  cases c with
  | mk t fn idx p ds ctx cs =>
    cases h with
    | mk _ hcm hpaths hrec =>
      refine .mk _ ?_ ?_ ?_
      · simpa [childrenMatch, Resolver.setIndex, Resolver.children, Resolver.type,
          Resolver.path] using hcm
      · simpa [Resolver.setIndex, Resolver.children, Resolver.path] using hpaths
      · simpa [Resolver.setIndex, Resolver.children] using hrec

theorem BuiltSpec_leaf (t : GoType) (fn : String) (idx : Int) (path : List String)
    (ds : List Directive) (ctx : Ctx) (hleaf : fieldsToBuild t = .nil) :
    BuiltSpec (.mk t fn idx path ds ctx .nil) := by
  refine .mk _ ?_ ?_ ?_
  · simp [childrenMatch, Resolver.children, Resolver.type, ResolverList.toList, hleaf,
      visibleEnumFrom]
  · simp [Resolver.children, ResolverList.toList]
  · simp [Resolver.children, ResolverList.toList]

mutual
theorem buildResolver_ok (parse : String → Except String Directive) :
    ∀ (t : GoType) (fn tag : String) (pp? : Option (List String)) (r : Resolver),
      buildResolver parse t fn tag pp? = .ok r →
      r.type = t ∧ r.fieldName = fn ∧ r.index = -1 ∧
      r.path = (match pp? with | none => [] | some pp => pp ++ [fn]) ∧
      r.context = Ctx.background ∧ BuiltSpec r
  | .base n, fn, tag, pp?, r => by
    intro h
    simp only [buildResolver] at h
    cases pp? with
    | none =>
      simp only [buildDirsPath] at h
      simp at h
      subst h
      simp [Resolver.type, Resolver.fieldName, Resolver.index, Resolver.path,
        Resolver.context]
      exact BuiltSpec_leaf _ _ _ _ _ _ rfl
    | some pp =>
      cases hp : parseDirectives parse tag with
      | error e => simp only [buildDirsPath, hp] at h; simp at h
      | ok ds =>
        simp only [buildDirsPath, hp] at h
        simp at h
        subst h
        simp [Resolver.type, Resolver.fieldName, Resolver.index, Resolver.path,
          Resolver.context]
        exact BuiltSpec_leaf _ _ _ _ _ _ rfl
  | .ptr (.base n), fn, tag, pp?, r => by
    intro h
    simp only [buildResolver] at h
    cases pp? with
    | none =>
      simp only [buildDirsPath] at h
      simp at h
      subst h
      simp [Resolver.type, Resolver.fieldName, Resolver.index, Resolver.path,
        Resolver.context]
      exact BuiltSpec_leaf _ _ _ _ _ _ rfl
    | some pp =>
      cases hp : parseDirectives parse tag with
      | error e => simp only [buildDirsPath, hp] at h; simp at h
      | ok ds =>
        simp only [buildDirsPath, hp] at h
        simp at h
        subst h
        simp [Resolver.type, Resolver.fieldName, Resolver.index, Resolver.path,
          Resolver.context]
        exact BuiltSpec_leaf _ _ _ _ _ _ rfl
  | .ptr (.ptr e2), fn, tag, pp?, r => by
    intro h
    simp only [buildResolver] at h
    cases pp? with
    | none =>
      simp only [buildDirsPath] at h
      simp at h
      subst h
      simp [Resolver.type, Resolver.fieldName, Resolver.index, Resolver.path,
        Resolver.context]
      exact BuiltSpec_leaf _ _ _ _ _ _ rfl
    | some pp =>
      cases hp : parseDirectives parse tag with
      | error e => simp only [buildDirsPath, hp] at h; simp at h
      | ok ds =>
        simp only [buildDirsPath, hp] at h
        simp at h
        subst h
        simp [Resolver.type, Resolver.fieldName, Resolver.index, Resolver.path,
          Resolver.context]
        exact BuiltSpec_leaf _ _ _ _ _ _ rfl
  | .ptr (.struct fs), fn, tag, pp?, r => by
    intro h
    simp only [buildResolver] at h
    cases pp? with
    | none =>
      simp only [buildDirsPath] at h
      cases hb : buildChildrenFn parse [] fs 0 with
      | error e => simp only [hb] at h; simp at h
      | ok cs =>
        simp only [hb] at h
        simp at h
        subst h
        obtain ⟨henum, hall⟩ := buildChildren_ok parse fs [] 0 cs hb
        simp [Resolver.type, Resolver.fieldName, Resolver.index, Resolver.path,
          Resolver.context]
        refine .mk _ ?_ ?_ ?_
        · simpa [childrenMatch, Resolver.children, Resolver.type, fieldsToBuild] using henum
        · intro c hc
          simpa [Resolver.path] using (hall c (by simpa [Resolver.children] using hc)).1
        · intro c hc
          exact (hall c (by simpa [Resolver.children] using hc)).2.2
    | some pp =>
      cases hp : parseDirectives parse tag with
      | error e => simp only [buildDirsPath, hp] at h; simp at h
      | ok ds =>
        simp only [buildDirsPath, hp] at h
        cases hb : buildChildrenFn parse (pp ++ [fn]) fs 0 with
        | error e => simp only [hb] at h; simp at h
        | ok cs =>
          simp only [hb] at h
          simp at h
          subst h
          obtain ⟨henum, hall⟩ := buildChildren_ok parse fs (pp ++ [fn]) 0 cs hb
          simp [Resolver.type, Resolver.fieldName, Resolver.index, Resolver.path,
            Resolver.context]
          refine .mk _ ?_ ?_ ?_
          · simpa [childrenMatch, Resolver.children, Resolver.type, fieldsToBuild] using henum
          · intro c hc
            simpa [Resolver.path] using (hall c (by simpa [Resolver.children] using hc)).1
          · intro c hc
            exact (hall c (by simpa [Resolver.children] using hc)).2.2
  | .struct fs, fn, tag, pp?, r => by
    intro h
    simp only [buildResolver] at h
    cases pp? with
    | none =>
      simp only [buildDirsPath] at h
      cases hb : buildChildrenFn parse [] fs 0 with
      | error e => simp only [hb] at h; simp at h
      | ok cs =>
        simp only [hb] at h
        simp at h
        subst h
        obtain ⟨henum, hall⟩ := buildChildren_ok parse fs [] 0 cs hb
        simp [Resolver.type, Resolver.fieldName, Resolver.index, Resolver.path,
          Resolver.context]
        refine .mk _ ?_ ?_ ?_
        · simpa [childrenMatch, Resolver.children, Resolver.type, fieldsToBuild] using henum
        · intro c hc
          simpa [Resolver.path] using (hall c (by simpa [Resolver.children] using hc)).1
        · intro c hc
          exact (hall c (by simpa [Resolver.children] using hc)).2.2
    | some pp =>
      cases hp : parseDirectives parse tag with
      | error e => simp only [buildDirsPath, hp] at h; simp at h
      | ok ds =>
        simp only [buildDirsPath, hp] at h
        cases hb : buildChildrenFn parse (pp ++ [fn]) fs 0 with
        | error e => simp only [hb] at h; simp at h
        | ok cs =>
          simp only [hb] at h
          simp at h
          subst h
          obtain ⟨henum, hall⟩ := buildChildren_ok parse fs (pp ++ [fn]) 0 cs hb
          simp [Resolver.type, Resolver.fieldName, Resolver.index, Resolver.path,
            Resolver.context]
          refine .mk _ ?_ ?_ ?_
          · simpa [childrenMatch, Resolver.children, Resolver.type, fieldsToBuild] using henum
          · intro c hc
            simpa [Resolver.path] using (hall c (by simpa [Resolver.children] using hc)).1
          · intro c hc
            exact (hall c (by simpa [Resolver.children] using hc)).2.2

theorem buildChildren_ok (parse : String → Except String Directive) :
    ∀ (fs : GoFieldList) (pp : List String) (i : Nat) (cs : ResolverList),
      buildChildrenFn parse pp fs i = .ok cs →
      (cs.toList.map (fun c => (c.index, c.fieldName, c.type)) =
        (visibleEnumFrom fs i).map (fun p => (p.1, p.2.name, p.2.type))) ∧
      (∀ c ∈ cs.toList, c.path = pp ++ [c.fieldName] ∧ c.context = Ctx.background ∧
        BuiltSpec c)
  | .nil, pp, i, cs => by
    intro h
    rw [buildChildrenFn] at h
    cases h
    simp [ResolverList.toList, visibleEnumFrom]
  | .cons (.mk n ty tg ex) rest, pp, i, cs => by
    intro h
    rw [buildChildrenFn] at h
    cases hex : ex with
    | false =>
      rw [hex] at h
      simp only [Bool.false_eq_true, if_false] at h
      obtain ⟨henum, hall⟩ := buildChildren_ok parse rest pp (i + 1) cs h
      refine ⟨?_, hall⟩
      simpa [visibleEnumFrom, GoField.exported, hex] using henum
    | true =>
      rw [hex] at h
      simp only [if_true] at h
      cases hbr : buildResolver parse ty n tg (some pp) with
      | error e => simp only [hbr] at h; simp at h
      | ok child =>
        simp only [hbr] at h
        cases hrest : buildChildrenFn parse pp rest (i + 1) with
        | error e => simp only [hrest] at h; simp at h
        | ok cs2 =>
          simp only [hrest] at h
          simp at h
          subst h
          obtain ⟨hty, hfn, hidx, hpath, hctx, hspec⟩ :=
            buildResolver_ok parse ty n tg (some pp) child hbr
          obtain ⟨henum, hall⟩ := buildChildren_ok parse rest pp (i + 1) cs2 hrest
          obtain ⟨hsty, hsfn, hsidx, hspath, hsctx, hsch⟩ :=
            setIndex_fields child ((i : Nat) : Int)
          constructor
          · rw [ResolverList.toList]
            simp only [List.map_cons]
            rw [henum]
            simp [visibleEnumFrom, GoField.exported, hex, GoField.name, GoField.type,
              hsty, hsfn, hsidx, hty, hfn]
          · intro c hc
            rw [ResolverList.toList] at hc
            rcases List.mem_cons.mp hc with hcc | hcc
            · subst hcc
              refine ⟨?_, ?_, BuiltSpec_setIndex child (Int.ofNat i) hspec⟩
              · rw [hspath, hsfn, hpath, hfn]
              · rw [hsctx, hctx]
            · exact hall c hcc
end

/-- Sibling paths are distinct, and distinct already in their last element,
recursively at every node. -/
inductive SibPaths : Resolver → Prop where
  | mk : ∀ r, r.children.toList.Pairwise
        (fun a b => a.path ≠ b.path ∧ a.path.getLast? ≠ b.path.getLast?) →
      (∀ c ∈ r.children.toList, SibPaths c) → SibPaths r

theorem BuiltSpec_depth (r : Resolver) (h : BuiltSpec r) :
    DepthOK r.path.length r := by
  induction h with
  | mk r hcm hpaths hrec ih =>
    refine .mk _ _ rfl ?_
    intro c hc
    have hd := ih c hc
    rw [hpaths c hc] at hd
    simpa using hd

theorem GoType.wf_eq (t : GoType) : GoType.wf t = wfFieldsGo (fieldsToBuild t) [] := by
  cases t with
  | base n => rfl
  | struct fs => rfl
  | ptr e => cases e <;> rfl

theorem wfFieldsGo_spec : ∀ (fs : GoFieldList) (seen : List String),
    wfFieldsGo fs seen = true →
    ((fs.toList.map GoField.name).Nodup ∧
      (∀ n ∈ fs.toList.map GoField.name, n ∉ seen)) ∧
    (∀ f ∈ fs.toList, GoType.wf f.type = true)
  | .nil, seen => by
    intro _
    simp [GoFieldList.toList]
  | .cons (.mk n ty tg ex) rest, seen => by
    intro h
    rw [wfFieldsGo] at h
    simp only [Bool.and_eq_true, Bool.not_eq_true'] at h
    obtain ⟨⟨hn, hty⟩, hrest⟩ := h
    obtain ⟨⟨hnd, hseen⟩, hwf⟩ := wfFieldsGo_spec rest (n :: seen) hrest
    refine ⟨⟨?_, ?_⟩, ?_⟩
    · rw [GoFieldList.toList]
      simp only [List.map_cons, List.nodup_cons, GoField.name]
      exact ⟨fun hmem => (hseen n hmem) (by simp), hnd⟩
    · intro m hm
      rw [GoFieldList.toList] at hm
      simp only [List.map_cons, List.mem_cons, GoField.name] at hm
      rcases hm with hm | hm
      · subst hm
        intro hmem
        rw [decide_eq_false_iff_not] at hn
        exact hn hmem
      · intro hmem
        exact (hseen m hm) (by simp [hmem])
    · intro f hf
      rw [GoFieldList.toList] at hf
      rcases List.mem_cons.mp hf with hf | hf
      · subst hf
        rw [GoField.type]
        exact hty
      · exact hwf f hf

theorem visibleEnum_sublist : ∀ (fs : GoFieldList) (i : Nat),
    ((visibleEnumFrom fs i).map (fun p => p.2)).Sublist fs.toList
  | .nil, i => by simp [visibleEnumFrom, GoFieldList.toList]
  | .cons f rest, i => by
    rw [visibleEnumFrom, GoFieldList.toList]
    by_cases hex : f.exported = true
    · rw [if_pos hex]
      simp only [List.map_cons]
      exact (visibleEnum_sublist rest (i + 1)).cons₂ f
    · rw [if_neg hex]
      exact (visibleEnum_sublist rest (i + 1)).cons f

theorem BuiltSpec_sibPaths (r : Resolver) (hb : BuiltSpec r)
    (hwf : GoType.wf r.type = true) : SibPaths r := by
  induction hb with
  | mk r hcm hpaths hrec ih =>
    rw [GoType.wf_eq] at hwf
    obtain ⟨⟨hnd, _⟩, htys⟩ := wfFieldsGo_spec (fieldsToBuild r.type) [] hwf
    have hnamesEq : r.children.toList.map Resolver.fieldName =
        (visibleEnumFrom (fieldsToBuild r.type) 0).map (fun p => p.2.name) := by
      have := congrArg (List.map (fun q : Int × String × GoType => q.2.1)) hcm
      simpa [List.map_map, Function.comp] using this
    have htypesEq : r.children.toList.map Resolver.type =
        (visibleEnumFrom (fieldsToBuild r.type) 0).map (fun p => p.2.type) := by
      have := congrArg (List.map (fun q : Int × String × GoType => q.2.2)) hcm
      simpa [List.map_map, Function.comp] using this
    have hvisNodup : ((visibleEnumFrom (fieldsToBuild r.type) 0).map (fun p => p.2.name)).Nodup := by
      have hsub := (visibleEnum_sublist (fieldsToBuild r.type) 0).map GoField.name
      rw [List.map_map] at hsub
      exact List.Nodup.sublist hsub hnd
    have hchNodup : (r.children.toList.map Resolver.fieldName).Nodup := by
      rw [hnamesEq]; exact hvisNodup
    refine .mk _ ?_ ?_
    · have hpw : r.children.toList.Pairwise
          (fun a b => a.fieldName ≠ b.fieldName) := by
        rw [List.Nodup, List.pairwise_map] at hchNodup
        exact hchNodup
      refine hpw.imp_of_mem ?_
      intro a b ha hb hne
      have hpa := hpaths a ha
      have hpb := hpaths b hb
      constructor
      · intro heq
        apply hne
        have : a.path.getLast? = b.path.getLast? := by rw [heq]
        rw [hpa, hpb, List.getLast?_concat, List.getLast?_concat] at this
        exact Option.some.inj this
      · intro heq
        apply hne
        rw [hpa, hpb, List.getLast?_concat, List.getLast?_concat] at heq
        exact Option.some.inj heq
    · intro c hc
      refine ih c hc ?_
      have hcmem : c.type ∈ r.children.toList.map Resolver.type :=
        List.mem_map_of_mem Resolver.type hc
      rw [htypesEq] at hcmem
      obtain ⟨p, hp, hpt⟩ := List.mem_map.mp hcmem
      have hf : p.2 ∈ (fieldsToBuild r.type).toList := by
        have : p.2 ∈ (visibleEnumFrom (fieldsToBuild r.type) 0).map (fun q => q.2) :=
          List.mem_map_of_mem (fun q => q.2) hp
        exact (visibleEnum_sublist (fieldsToBuild r.type) 0).mem this
      rw [← hpt]
      exact htys p.2 hf

/-- C3: in a successfully built tree the root has empty `Path` and
`Index = -1`; every node's children carry `Path = parent.Path + [fieldName]`
(within `BuiltSpec`); consequently `len(Path)` equals the node's depth from
the root (`DepthOK 0`); `PathString` is the dot-joined path; and (for a
well-formed Go struct type, whose field names are distinct) distinct
siblings at the same depth have paths differing in their last element. -/
theorem c3_paths (parse : String → Except String Directive) (t : GoType) (r : Resolver)
    (hb : buildResolverTree parse t = .ok r) (hwf : GoType.wf t = true) :
    r.path = [] ∧ r.index = -1 ∧ BuiltSpec r ∧ DepthOK 0 r ∧ SibPaths r ∧
    (∀ n : Resolver, n.PathString = String.intercalate "." n.path) := by
  obtain ⟨hty, hfn, hidx, hpath, hctx, hspec⟩ :=
    buildResolver_ok parse t "" "" none r hb
  simp only at hpath
  have hd := BuiltSpec_depth r hspec
  rw [hpath] at hd
  refine ⟨hpath, hidx, hspec, by simpa using hd, ?_, fun n => rfl⟩
  exact BuiltSpec_sibPaths r hspec (by rw [hty]; exact hwf)

/-- The `Config` struct type of the spec's scenario. -/
def configType : GoType :=
  .struct (.cons (.mk "Host" (.base "string") "required" true)
    (.cons (.mk "Port" (.base "int") "default" true) .nil))

/-- The bare tree `buildResolverTree` produces for `configType`. -/
def cfgTree : Resolver :=
  .mk configType "" (-1) [] [] Ctx.background
    (.cons (.mk (.base "string") "Host" 0 ["Host"] [⟨"required", []⟩] Ctx.background .nil)
      (.cons (.mk (.base "int") "Port" 1 ["Port"] [⟨"default", []⟩] Ctx.background .nil) .nil))

/-- Witness for C3 at the `Config` type. -/
theorem c3_witness :
    buildResolverTree parseStrict configType = .ok cfgTree ∧
    GoType.wf configType = true ∧
    (cfgTree.path = [] ∧ cfgTree.index = -1 ∧ BuiltSpec cfgTree ∧ DepthOK 0 cfgTree ∧
      SibPaths cfgTree ∧
      (∀ n : Resolver, n.PathString = String.intercalate "." n.path)) :=
  ⟨rfl, rfl, c3_paths parseStrict configType cfgTree rfl rfl⟩

theorem tagsWF_eq (parse : String → Except String Directive) (t : GoType) :
    tagsWF parse t = tagsFieldsWF parse (fieldsToBuild t) := by
  cases t with
  | base n => rfl
  | struct fs => rfl
  | ptr e => cases e <;> rfl

mutual
theorem build_ok_of_tagsWF (parse : String → Except String Directive) :
    ∀ (t : GoType) (fn tag : String) (pp? : Option (List String)),
      (pp? = none ∨ ∃ ds, parseDirectives parse tag = .ok ds) →
      tagsWF parse t = true →
      ∃ r, buildResolver parse t fn tag pp? = .ok r
  | .base n, fn, tag, pp? => by
    intro hdp _
    rcases hdp with hnone | ⟨ds, hds⟩
    · subst hnone
      exact ⟨_, rfl⟩
    · cases pp? with
      | none => exact ⟨_, rfl⟩
      | some pp =>
        exact ⟨.mk (.base n) fn (-1) (pp ++ [fn]) ds Ctx.background .nil,
          by simp only [buildResolver, buildDirsPath, hds]⟩
  | .ptr (.base n), fn, tag, pp? => by
    intro hdp _
    rcases hdp with hnone | ⟨ds, hds⟩
    · subst hnone
      exact ⟨_, rfl⟩
    · cases pp? with
      | none => exact ⟨_, rfl⟩
      | some pp =>
        exact ⟨.mk (.ptr (.base n)) fn (-1) (pp ++ [fn]) ds Ctx.background .nil,
          by simp only [buildResolver, buildDirsPath, hds]⟩
  | .ptr (.ptr e2), fn, tag, pp? => by
    intro hdp _
    rcases hdp with hnone | ⟨ds, hds⟩
    · subst hnone
      exact ⟨_, rfl⟩
    · cases pp? with
      | none => exact ⟨_, rfl⟩
      | some pp =>
        exact ⟨.mk (.ptr (.ptr e2)) fn (-1) (pp ++ [fn]) ds Ctx.background .nil,
          by simp only [buildResolver, buildDirsPath, hds]⟩
  | .struct fs, fn, tag, pp? => by
    intro hdp htags
    have hfs : tagsFieldsWF parse fs = true := htags
    rcases hdp with hnone | ⟨ds, hds⟩
    · subst hnone
      obtain ⟨cs, hcs⟩ := buildChildren_exists parse fs [] 0 hfs
      exact ⟨_, by simp only [buildResolver, buildDirsPath, hcs]; rfl⟩
    · cases pp? with
      | none =>
        obtain ⟨cs, hcs⟩ := buildChildren_exists parse fs [] 0 hfs
        exact ⟨_, by simp only [buildResolver, buildDirsPath, hcs]; rfl⟩
      | some pp =>
        obtain ⟨cs, hcs⟩ := buildChildren_exists parse fs (pp ++ [fn]) 0 hfs
        exact ⟨_, by simp only [buildResolver, buildDirsPath, hds, hcs]; rfl⟩
  | .ptr (.struct fs), fn, tag, pp? => by
    intro hdp htags
    have hfs : tagsFieldsWF parse fs = true := htags
    rcases hdp with hnone | ⟨ds, hds⟩
    · subst hnone
      obtain ⟨cs, hcs⟩ := buildChildren_exists parse fs [] 0 hfs
      exact ⟨_, by simp only [buildResolver, buildDirsPath, hcs]; rfl⟩
    · cases pp? with
      | none =>
        obtain ⟨cs, hcs⟩ := buildChildren_exists parse fs [] 0 hfs
        exact ⟨_, by simp only [buildResolver, buildDirsPath, hcs]; rfl⟩
      | some pp =>
        obtain ⟨cs, hcs⟩ := buildChildren_exists parse fs (pp ++ [fn]) 0 hfs
        exact ⟨_, by simp only [buildResolver, buildDirsPath, hds, hcs]; rfl⟩

theorem buildChildren_exists (parse : String → Except String Directive) :
    ∀ (fs : GoFieldList) (pp : List String) (i : Nat),
      tagsFieldsWF parse fs = true →
      ∃ cs, buildChildrenFn parse pp fs i = .ok cs
  | .nil, pp, i => fun _ => ⟨.nil, rfl⟩
  | .cons (.mk n ty tg ex) rest, pp, i => by
    intro h
    rw [tagsFieldsWF] at h
    simp only [Bool.and_eq_true] at h
    obtain ⟨hhead, hrest⟩ := h
    obtain ⟨cs2, hcs2⟩ := buildChildren_exists parse rest pp (i + 1) hrest
    cases hex : ex with
    | false =>
      refine ⟨cs2, ?_⟩
      rw [buildChildrenFn]
      simp only [hex, Bool.false_eq_true, if_false]
      exact hcs2
    | true =>
      rw [hex] at hhead
      simp only [if_true, Bool.and_eq_true] at hhead
      obtain ⟨hparse, hty⟩ := hhead
      cases hds : parseDirectives parse tg with
      | error e => rw [hds] at hparse; simp at hparse
      | ok ds =>
        obtain ⟨child, hchild⟩ :=
          build_ok_of_tagsWF parse ty n tg (some pp) (.inr ⟨ds, hds⟩) hty
        refine ⟨.cons (child.setIndex (Int.ofNat i)) cs2, ?_⟩
        rw [buildChildrenFn]
        simp only [hex, if_true, hchild, hcs2]
end

/-- C6: for any type whose (one-level-unpointered) struct nodes are
expanded and whose reachable tags are well formed, `Build` succeeds; at
*every* node the children correspond exactly to the visible fields of the
struct in declaration order with `Index` the field's ordinal among all
declared fields (`BuiltSpec`); in particular the root has exactly one child
per visible field, each with `Path = [fieldName]`, and unexported fields
are never materialized. -/
theorem c6_visible_fields (parse : String → Except String Directive) (t : GoType)
    (h : tagsWF parse t = true) :
    ∃ r, buildResolverTree parse t = .ok r ∧ BuiltSpec r ∧
      (r.children.toList.map (fun c => (c.index, c.fieldName, c.type)) =
        (visibleEnumFrom (fieldsToBuild t) 0).map (fun p => (p.1, p.2.name, p.2.type))) ∧
      r.children.toList.length = (visibleEnumFrom (fieldsToBuild t) 0).length ∧
      (∀ c ∈ r.children.toList, c.path = [c.fieldName]) := by
  obtain ⟨r, hr⟩ := build_ok_of_tagsWF parse t "" "" none (.inl rfl) h
  obtain ⟨hty, hfn, hidx, hpath, hctx, hspec⟩ := buildResolver_ok parse t "" "" none r hr
  simp only at hpath
  refine ⟨r, hr, hspec, ?_, ?_, ?_⟩
  · cases hspec with
    | mk _ hcm hpaths hrec =>
      rw [childrenMatch, hty] at hcm
      exact hcm
  · cases hspec with
    | mk _ hcm hpaths hrec =>
      rw [childrenMatch, hty] at hcm
      have := congrArg List.length hcm
      simpa using this
  · cases hspec with
    | mk _ hcm hpaths hrec =>
      intro c hc
      rw [hpaths c hc, hpath]
      simp

/-- Witness for C6 at the two-visible-field `Config` type: `Build`
succeeds, the root has exactly 2 children — `(0, Host, string)` and
`(1, Port, int)` — each with `Path = [fieldName]`. -/
theorem c6_witness :
    tagsWF parseStrict configType = true ∧
    (visibleEnumFrom (fieldsToBuild configType) 0).length = 2 ∧
    (∃ r, buildResolverTree parseStrict configType = .ok r ∧ BuiltSpec r ∧
      (r.children.toList.map (fun c => (c.index, c.fieldName, c.type)) =
        (visibleEnumFrom (fieldsToBuild configType) 0).map
          (fun p => (p.1, p.2.name, p.2.type))) ∧
      r.children.toList.length = (visibleEnumFrom (fieldsToBuild configType) 0).length ∧
      (∀ c ∈ r.children.toList, c.path = [c.fieldName])) :=
  ⟨rfl, rfl, c6_visible_fields parseStrict configType rfl⟩

/-! ## Claim C2: cloning -/

theorem setParent_ids : ∀ (c : HRes) (q : Option Nat), (c.setParent q).ids = c.ids
  | .mk i p t fn idx path pref ds dref ctx cs, q => rfl

theorem HCopies_setParent (c c2 : HRes) (q : Option Nat) (h : HCopies c c2) :
    HCopies c (c2.setParent q) := by
  cases h with
  | mk i p t fn idx path pref ds dref ctx cs i2 p2 ctx2 cs2 hctx hpar hcl =>
    exact .mk i p t fn idx path pref ds dref ctx cs i2 q ctx2 cs2 hctx hpar hcl

theorem setParent_parent : ∀ (c : HRes) (q : Option Nat), (c.setParent q).parent = q
  | .mk i p t fn idx path pref ds dref ctx cs, q => rfl

mutual
theorem copy_spec : ∀ (r : HRes) (next : Nat),
    (HRes.copy r next).1.ids = List.range' next r.count ∧
    (HRes.copy r next).2 = next + r.count ∧
    HCopies r (HRes.copy r next).1
  | .mk i p t fn idx path pref ds dref ctx cs, next => by
    obtain ⟨hids, hcnt, hcps, hpar⟩ := copyChildren_spec cs (next + 1) next
    rw [HRes.copy]
    cases hcc : HRes.copyChildren cs (next + 1) next with
    | mk cs2 next2 =>
      rw [hcc] at hids hcnt hcps hpar
      simp only at hids hcnt hcps hpar ⊢
      refine ⟨?_, ?_, ?_⟩
      · rw [HRes.ids, hids, HRes.count]
        rw [List.range'_succ]
      · rw [hcnt, HRes.count]
        omega
      · exact .mk i p t fn idx path pref ds dref ctx cs next p Ctx.background cs2
          rfl hpar hcps

theorem copyChildren_spec : ∀ (cs : HResList) (next pid : Nat),
    HRes.idsList (HRes.copyChildren cs next pid).1 =
      List.range' next (HRes.countList cs) ∧
    (HRes.copyChildren cs next pid).2 = next + HRes.countList cs ∧
    HCopiesList cs (HRes.copyChildren cs next pid).1 ∧
    HResList.allParent (HRes.copyChildren cs next pid).1 pid = true
  | .nil, next, pid => by
    rw [HRes.copyChildren]
    simp [HRes.idsList, HRes.countList, HResList.allParent]
    exact .nil
  | .cons c rest, next, pid => by
    obtain ⟨hids1, hcnt1, hcp1⟩ := copy_spec c next
    rw [HRes.copyChildren]
    cases hc1 : HRes.copy c next with
    | mk c2 next2 =>
      rw [hc1] at hids1 hcnt1 hcp1
      simp only at hids1 hcnt1 hcp1
      obtain ⟨hids2, hcnt2, hcp2, hpar2⟩ := copyChildren_spec rest next2 pid
      cases hc2 : HRes.copyChildren rest next2 pid with
      | mk cs2 next3 =>
        rw [hc2] at hids2 hcnt2 hcp2 hpar2
        simp only at hids2 hcnt2 hcp2 hpar2 ⊢
        refine ⟨?_, ?_, ?_, ?_⟩
        · rw [HRes.idsList, setParent_ids, hids1, hc2]
          simp only
          rw [hids2, hcnt1, HRes.countList]
          have h3 := List.range'_append next c.count (HRes.countList rest) 1
          simp only [one_mul] at h3
          rw [Nat.add_comm (HRes.countList rest) c.count] at h3
          exact h3
        · rw [hc2]
          simp only
          rw [hcnt2, hcnt1, HRes.countList]
          omega
        · rw [hc2]
          simp only
          exact .cons c (c2.setParent (some pid)) rest cs2
            (HCopies_setParent c c2 (some pid) hcp1) hcp2
        · rw [hc2]
          simp only
          rw [HResList.allParent, setParent_parent]
          simp [hpar2]
end

/-- C2, amended: cloning produces a structurally identical tree with fresh
node identities — the clone's node allocations are exactly the next
`count` fresh heap addresses, pairwise distinct and disjoint from the
source's (and from any other clone's) — with every copied child's `Parent`
rebound to its new parent and every `Context` reset to the fresh base
state; but the `Path` and `Directives` slice identities are copied
verbatim (`HCopies` keeps `pathRef`/`directivesRef`), so those backing
arrays remain shared with the source. -/
theorem c2_clone_freshness (r : HRes) (next : Nat) (h : ∀ a ∈ r.ids, a < next) :
    HCopies r (HRes.copy r next).1 ∧
    (HRes.copy r next).1.ids = List.range' next r.count ∧
    (HRes.copy r next).1.ids.Nodup ∧
    (∀ a ∈ (HRes.copy r next).1.ids, a ∉ r.ids) ∧
    (∀ a ∈ (HRes.copy r (HRes.copy r next).2).1.ids, a ∉ (HRes.copy r next).1.ids) := by
  obtain ⟨hids, hcnt, hcp⟩ := copy_spec r next
  obtain ⟨hids2, hcnt2, hcp2⟩ := copy_spec r (HRes.copy r next).2
  refine ⟨hcp, hids, ?_, ?_, ?_⟩
  · rw [hids]
    exact List.nodup_range' next r.count
  · intro a ha hmem
    rw [hids] at ha
    have h1 := List.mem_range'_1.mp ha
    have h2 := h a hmem
    omega
  · intro a ha hmem
    rw [hids2, hcnt] at ha
    rw [hids] at hmem
    have h1 := List.mem_range'_1.mp ha
    have h2 := List.mem_range'_1.mp hmem
    omega

/-- A cached one-node source tree: node allocation `0`, `Path` backed by
array `100`, `Directives` backed by array `101`. -/
def hSrc : HRes :=
  .mk 0 none (.base "int") "A" 0 ["A"] 100 [⟨"req", []⟩] 101 Ctx.background .nil

/-- C2, counterexample: the clone of `hSrc` (allocated at fresh address 1)
keeps the very same `Directives` and `Path` backing arrays as the cached
source — `*resolverCopy = *r` copies the slice headers — so the clone
*does* share mutable state with the source: writing through the clone's
`Directives` (or `Path`) elements is visible to the cached tree,
contradicting the claim. -/
theorem c2_counterexample :
    (HRes.copy hSrc 1).1.directivesRef = hSrc.directivesRef ∧
    (HRes.copy hSrc 1).1.pathRef = hSrc.pathRef ∧
    hSrc.directivesVal ≠ [] ∧
    ¬ HSharesNoMutable hSrc (HRes.copy hSrc 1).1 := by
  refine ⟨rfl, rfl, ?_, ?_⟩
  · simp [hSrc, HRes.directivesVal]
  · decide

/-- A two-node source tree for the cloning witness. -/
def hTree : HRes :=
  .mk 0 none configType "" (-1) [] 50 [] 51 Ctx.background
    (.cons (.mk 1 (some 0) (.base "string") "Host" 0 ["Host"] 52
      [⟨"required", []⟩] 53 Ctx.background .nil) .nil)

/-- Witness for the amended C2 at a concrete two-node tree. -/
theorem c2_witness :
    (∀ a ∈ hTree.ids, a < 10) ∧
    (HCopies hTree (HRes.copy hTree 10).1 ∧
      (HRes.copy hTree 10).1.ids = List.range' 10 hTree.count ∧
      (HRes.copy hTree 10).1.ids.Nodup ∧
      (∀ a ∈ (HRes.copy hTree 10).1.ids, a ∉ hTree.ids) ∧
      (∀ a ∈ (HRes.copy hTree (HRes.copy hTree 10).2).1.ids,
        a ∉ (HRes.copy hTree 10).1.ids)) :=
  ⟨by decide, c2_clone_freshness hTree 10 (by decide)⟩
